import Mathlib

/-!
Shallow embedding of the SubTubeMCP subtitle/comment pipeline
(`src/handlers/subtitle.ts`, `src/types/index.ts`, `src/utils/helpers.ts`)
in Lean 4, together with theorems settling the frozen claims C1..C10.

Modelling conventions:
* JavaScript strings are modelled as `List Char` (`Str`), i.e. sequences of
  Unicode code points.  (JS strings are UTF-16 code-unit sequences; the two
  agree on all inputs appearing below, which contain no astral characters.)
* JavaScript numbers are modelled as exact rationals (`Rat`); `NaN` (which
  can arise from `parseFloat` on malformed input) is modelled by `Option Rat`
  with `none` playing the role of `NaN`.  `Infinity` does not arise on the
  inputs considered.  Arithmetic is written with `mkRat`-based wrappers
  (`rmul`, `radd`, ...) because the library operations on `Rat` are marked
  irreducible and would block kernel evaluation; the wrappers are proved
  equal to the library operations below.
* Scanning loops are written with an explicit fuel argument (always called
  with fuel = length of the scanned list, which is sufficient since every
  step consumes at least one element); running out of fuel returns the
  rest unchanged.  This keeps every definition structurally recursive and
  kernel-computable.
-/

/-- JS strings as code-point sequences. -/
abbrev Str := List Char

/-! ### Exact rational arithmetic wrappers (kernel-computable) -/

/-- Multiplication on `Rat` via `mkRat` (equals `a * b`, see `rmul_eq`). -/
def rmul (a b : Rat) : Rat := mkRat (a.num * b.num) (a.den * b.den)

/-- Addition on `Rat` via `mkRat` (equals `a + b`, see `radd_eq`). -/
def radd (a b : Rat) : Rat := mkRat (a.num * b.den + b.num * a.den) (a.den * b.den)

/-- Subtraction on `Rat` via `mkRat` (equals `a - b`, see `rsub_eq`). -/
def rsub (a b : Rat) : Rat := mkRat (a.num * b.den - b.num * a.den) (a.den * b.den)

/-- Inverse on `Rat` via `mkRat` (equals `a⁻¹`, see `rinv_eq`). -/
def rinv (a : Rat) : Rat := mkRat (Int.sign a.num * a.den) a.num.natAbs

/-- Division on `Rat` via `mkRat` (equals `a / b`, see `rdiv_eq`). -/
def rdiv (a b : Rat) : Rat := rmul a (rinv b)

/-- Negation on `Rat` via `mkRat`. -/
def rneg (a : Rat) : Rat := mkRat (-a.num) a.den

/-- JS `Math.max` restricted to two real (non-NaN) arguments. -/
def rmax (a b : Rat) : Rat := if a < b then b else a

/-- Integer literal as a rational, kernel-computably. -/
def intQ (n : Int) : Rat := mkRat n 1

/-- Natural literal as a rational, kernel-computably. -/
def natQ (n : Nat) : Rat := mkRat n 1

/-! ### Character classes and basic string utilities -/

/-- The character set matched by the JS regex class `\s` (also the set trimmed
by `String.prototype.trim`): ASCII whitespace, NEL-free Unicode space
separators, line/paragraph separators and the BOM. -/
def jsWhitespace (c : Char) : Bool :=
  let n := c.toNat
  n = 32 || n = 9 || n = 10 || n = 11 || n = 12 || n = 13 || n = 160 || n = 5760 ||
    (8192 ≤ n && n ≤ 8202) || n = 8232 || n = 8233 || n = 8239 || n = 8287 ||
    n = 12288 || n = 65279

/-- Word characters for the JS regex `\b` boundary: `[A-Za-z0-9_]`. -/
def isWordChar (c : Char) : Bool := c.isAlphanum || c = '_'

/-- ASCII lower-casing, as used by the JS `i` regex flag and `toLowerCase`
on the (ASCII) inputs appearing in this development. -/
def lowerChar (c : Char) : Char := c.toLower

/-- JS `String.prototype.trim`. -/
def jsTrim (l : Str) : Str :=
  ((l.dropWhile jsWhitespace).reverse.dropWhile jsWhitespace).reverse

/-- Case-insensitive prefix test. -/
def ciPrefixOf (pat l : Str) : Bool :=
  List.isPrefixOf (pat.map lowerChar) (l.map lowerChar)

/-- Substring occurrence (JS `regex.test` for a literal pattern). -/
def containsStr (pat l : Str) : Bool := l.tails.any fun t => List.isPrefixOf pat t

/-- Case-insensitive substring occurrence (JS `/lit/i.test`). -/
def containsStrCI (pat l : Str) : Bool :=
  containsStr (pat.map lowerChar) (l.map lowerChar)

/-- JS `s.replace(/lit/g, rep)`: leftmost, non-overlapping, global literal
replacement (fuelled scanner; every step consumes at least one character). -/
def replaceAllAux (pat rep : Str) : Nat → Str → Str
  | 0, l => l
  | _, [] => []
  | fuel+1, c :: cs =>
    if pat ≠ [] ∧ List.isPrefixOf pat (c :: cs) then
      rep ++ replaceAllAux pat rep fuel (List.drop (pat.length - 1) cs)
    else c :: replaceAllAux pat rep fuel cs

/-- JS global literal replacement, at full fuel. -/
def replaceAll (pat rep l : Str) : Str := replaceAllAux pat rep l.length l

/-- JS `s.replace(/lit/gi, '')`: case-insensitive global literal removal. -/
def removeAllCIAux (pat : Str) : Nat → Str → Str
  | 0, l => l
  | _, [] => []
  | fuel+1, c :: cs =>
    if pat ≠ [] ∧ ciPrefixOf pat (c :: cs) then
      removeAllCIAux pat fuel (List.drop (pat.length - 1) cs)
    else c :: removeAllCIAux pat fuel cs

/-- Case-insensitive global literal removal, at full fuel. -/
def removeAllCI (pat l : Str) : Str := removeAllCIAux pat l.length l

/-- JS `s.split(sep)` for a non-empty literal separator (fuelled). -/
def splitOnLitAux (sep : Str) : Nat → Str → Str → List Str
  | 0, l, cur => [cur.reverse ++ l]
  | _, [], cur => [cur.reverse]
  | fuel+1, c :: cs, cur =>
    if sep ≠ [] ∧ List.isPrefixOf sep (c :: cs) then
      cur.reverse :: splitOnLitAux sep fuel (List.drop (sep.length - 1) cs) []
    else splitOnLitAux sep fuel cs (c :: cur)

/-- JS `s.split(sep)` for a literal separator, at full fuel. -/
def splitOnLit (sep l : Str) : List Str := splitOnLitAux sep l.length l []

/-- JS `s.split(/\s+/)`: pieces between maximal whitespace runs.  Following
the JS semantics, a leading or trailing whitespace run produces an empty
piece at the corresponding end, and `"".split(/\s+/)` is `[""]`. -/
def splitWsAux : Nat → Str → Str → List Str
  | 0, l, cur => [cur.reverse ++ l]
  | _, [], cur => [cur.reverse]
  | fuel+1, c :: cs, cur =>
    if jsWhitespace c then
      cur.reverse :: splitWsAux fuel (cs.dropWhile jsWhitespace) []
    else splitWsAux fuel cs (c :: cur)

/-- JS `s.split(/\s+/)`, at full fuel. -/
def splitWs (l : Str) : List Str := splitWsAux l.length l []

/-- Numeric value of a decimal digit string. -/
def natOfDigits (l : Str) : Nat := l.foldl (fun a c => a * 10 + (c.toNat - 48)) 0

/-- Hexadecimal digit test (`[0-9a-fA-F]`). -/
def isHexDigitChar (c : Char) : Bool :=
  c.isDigit || ('a' ≤ c && c ≤ 'f') || ('A' ≤ c && c ≤ 'F')

/-- Numeric value of a hexadecimal digit string. -/
def natOfHexDigits (l : Str) : Nat :=
  l.foldl (fun a c =>
    a * 16 + (if c.isDigit then c.toNat - 48 else if 'a' ≤ c then c.toNat - 87 else c.toNat - 55)) 0

/-- Decimal string for a natural number (fuelled division loop). -/
def natToStrAux : Nat → Nat → Str
  | 0, _ => []
  | fuel+1, n =>
    if n < 10 then [Char.ofNat (48 + n)]
    else natToStrAux fuel (n / 10) ++ [Char.ofNat (48 + n % 10)]

/-- Decimal string for a natural number (JS `String(n)` for naturals). -/
def natToStr (n : Nat) : Str := natToStrAux (n + 1) n

/-- Decimal string for an integer (JS `String(n)` / `toString()`). -/
def intToStr (i : Int) : Str :=
  if i < 0 then '-' :: natToStr (-i).toNat else natToStr i.toNat

/-- JS `String.prototype.padStart(2, '0')`. -/
def padStart2 (s : Str) : Str := List.replicate (2 - s.length) '0' ++ s

/-- Space-joining of text pieces (JS `arr.join(' ')`). -/
def joinSpace (ls : List Str) : Str := List.intercalate [' '] ls

/-! ### The text normalizer `cleanSubtitleText` (subtitle.ts lines 426-490) -/

/-- Decode JS `/&#(\d+);/g` with the source's replacement function: greedy
digit run terminated by `;`; code points 8203-8205 decode to nothing; other
values go through `String.fromCharCode`, i.e. are reduced mod 2^16.  (A code
that lands on an unpaired surrogate is modelled as U+0000.) -/
def decodeDecEntitiesAux : Nat → Str → Str
  | 0, l => l
  | _, [] => []
  | fuel+1, c :: cs =>
    let rest := cs.tail
    let digits := rest.takeWhile Char.isDigit
    let after := rest.dropWhile Char.isDigit
    if c = '&' ∧ cs.head? = some '#' ∧ digits ≠ [] ∧ after.head? = some ';' then
      let code := natOfDigits digits
      (if code = 8203 ∨ code = 8204 ∨ code = 8205 then [] else [Char.ofNat (code % 65536)])
        ++ decodeDecEntitiesAux fuel (after.drop 1)
    else c :: decodeDecEntitiesAux fuel cs

/-- Decode `/&#(\d+);/g`, at full fuel. -/
def decodeDecEntities (l : Str) : Str := decodeDecEntitiesAux l.length l

/-- Decode JS `/&#x([0-9a-fA-F]+);/g` analogously. -/
def decodeHexEntitiesAux : Nat → Str → Str
  | 0, l => l
  | _, [] => []
  | fuel+1, c :: cs =>
    let rest := cs.tail.tail
    let digits := rest.takeWhile isHexDigitChar
    let after := rest.dropWhile isHexDigitChar
    if c = '&' ∧ cs.head? = some '#' ∧ cs.tail.head? = some 'x' ∧ digits ≠ [] ∧
        after.head? = some ';' then
      let code := natOfHexDigits digits
      (if code = 8203 ∨ code = 8204 ∨ code = 8205 then [] else [Char.ofNat (code % 65536)])
        ++ decodeHexEntitiesAux fuel (after.drop 1)
    else c :: decodeHexEntitiesAux fuel cs

/-- Decode `/&#x...;/g`, at full fuel. -/
def decodeHexEntities (l : Str) : Str := decodeHexEntitiesAux l.length l

/-- Shape test for the body of a VTT timing tag `<dd:dd:dd.ddd>` (the 13
characters following `<`). -/
def timingTagBody : Str → Bool
  | d1 :: d2 :: c1 :: d3 :: d4 :: c2 :: d5 :: d6 :: p :: m1 :: m2 :: m3 :: g :: _ =>
    d1.isDigit && d2.isDigit && c1 = ':' && d3.isDigit && d4.isDigit && c2 = ':' &&
      d5.isDigit && d6.isDigit && p = '.' && m1.isDigit && m2.isDigit && m3.isDigit && g = '>'
  | _ => false

/-- JS `s.replace(/<\d{2}:\d{2}:\d{2}\.\d{3}>/g, '')` (fuelled). -/
def stripTimingTagsAux : Nat → Str → Str
  | 0, l => l
  | _, [] => []
  | fuel+1, c :: cs =>
    if c = '<' ∧ timingTagBody cs then stripTimingTagsAux fuel (cs.drop 13)
    else c :: stripTimingTagsAux fuel cs

/-- Strip VTT timing tags, at full fuel. -/
def stripTimingTags (l : Str) : Str := stripTimingTagsAux l.length l

/-- JS `s.replace(/<\/?[a-zA-Z][^>]*>/g, '')`: at each `<`, an optional `/`,
a letter, then everything up to the next `>` (no match if none follows). -/
def stripHtmlTagsAux : Nat → Str → Str
  | 0, l => l
  | _, [] => []
  | fuel+1, c :: cs =>
    if c = '<' then
      let afterSlash := if cs.head? = some '/' then cs.drop 1 else cs
      match afterSlash with
      | t :: rest =>
        if t.isAlpha then
          match rest.dropWhile (fun x => x ≠ '>') with
          | _ :: rest2 => stripHtmlTagsAux fuel rest2
          | [] => c :: stripHtmlTagsAux fuel cs
        else c :: stripHtmlTagsAux fuel cs
      | [] => c :: stripHtmlTagsAux fuel cs
    else c :: stripHtmlTagsAux fuel cs

/-- Strip HTML-style tags, at full fuel. -/
def stripHtmlTags (l : Str) : Str := stripHtmlTagsAux l.length l

/-- The twelve bracketed music/sound markers removed by the source, in
source order (the `gi` flag only matters for the Latin spellings). -/
def musicMarkers : List Str :=
  ["[音楽]".data, "[拍手]".data, "[笑い]".data, "[Music]".data, "[Applause]".data,
    "[Laughter]".data, "(音楽)".data, "(拍手)".data, "(笑い)".data, "(Music)".data,
    "(Applause)".data, "(Laughter)".data]

/-- Remove musical-note glyph runs (`/♪+/g → ''`, i.e. delete every `♪`)
and then the twelve bracketed markers. -/
def removeMusicMarkers (l : Str) : Str :=
  musicMarkers.foldl (fun acc p => removeAllCI p acc) (l.filter fun c => c ≠ '♪')

/-- JS `s.replace(/^>>\s*/g, '')`: strip one leading `>>` plus following
whitespace (the `^` anchor restricts the global replace to one site). -/
def stripSpeakerArrow (l : Str) : Str :=
  match l with
  | '>' :: '>' :: rest => rest.dropWhile jsWhitespace
  | l => l

/-- Characters matched by an unflagged JS regex `.` (everything except line
terminators). -/
def dotMatches (c : Char) : Bool :=
  ¬(c = '\n' ∨ c = '\r' ∨ c.toNat = 8232 ∨ c.toNat = 8233)

/-- JS `s.replace(/(.)\1{3,}/g, '$1')`: collapse every maximal run of ≥ 4
identical dot-matching characters to a single character (fuelled; each step
consumes a whole maximal run). -/
def collapseRunsAux : Nat → Str → Str
  | 0, l => l
  | _, [] => []
  | fuel+1, c :: cs =>
    (if dotMatches c ∧ (cs.takeWhile (fun x => x = c)).length + 1 ≥ 4 then [c]
     else c :: cs.takeWhile (fun x => x = c)) ++
      collapseRunsAux fuel (cs.dropWhile (fun x => x = c))

/-- Collapse character runs, at full fuel. -/
def collapseRuns (l : Str) : Str := collapseRunsAux l.length l

/-- The half-width → full-width katakana table of
`convertHalfWidthToFullWidth` (subtitle.ts lines 495-513). -/
def halfToFull (c : Char) : Char :=
  match c with
  | 'ｱ' => 'ア' | 'ｲ' => 'イ' | 'ｳ' => 'ウ' | 'ｴ' => 'エ' | 'ｵ' => 'オ'
  | 'ｶ' => 'カ' | 'ｷ' => 'キ' | 'ｸ' => 'ク' | 'ｹ' => 'ケ' | 'ｺ' => 'コ'
  | 'ｻ' => 'サ' | 'ｼ' => 'シ' | 'ｽ' => 'ス' | 'ｾ' => 'セ' | 'ｿ' => 'ソ'
  | 'ﾀ' => 'タ' | 'ﾁ' => 'チ' | 'ﾂ' => 'ツ' | 'ﾃ' => 'テ' | 'ﾄ' => 'ト'
  | 'ﾅ' => 'ナ' | 'ﾆ' => 'ニ' | 'ﾇ' => 'ヌ' | 'ﾈ' => 'ネ' | 'ﾉ' => 'ノ'
  | 'ﾊ' => 'ハ' | 'ﾋ' => 'ヒ' | 'ﾌ' => 'フ' | 'ﾍ' => 'ヘ' | 'ﾎ' => 'ホ'
  | 'ﾏ' => 'マ' | 'ﾐ' => 'ミ' | 'ﾑ' => 'ム' | 'ﾒ' => 'メ' | 'ﾓ' => 'モ'
  | 'ﾔ' => 'ヤ' | 'ﾕ' => 'ユ' | 'ﾖ' => 'ヨ'
  | 'ﾗ' => 'ラ' | 'ﾘ' => 'リ' | 'ﾙ' => 'ル' | 'ﾚ' => 'レ' | 'ﾛ' => 'ロ'
  | 'ﾜ' => 'ワ' | 'ｦ' => 'ヲ' | 'ﾝ' => 'ン'
  | 'ｧ' => 'ァ' | 'ｨ' => 'ィ' | 'ｩ' => 'ゥ' | 'ｪ' => 'ェ' | 'ｫ' => 'ォ'
  | 'ｬ' => 'ャ' | 'ｭ' => 'ュ' | 'ｮ' => 'ョ' | 'ｯ' => 'ッ'
  | 'ｰ' => 'ー' | 'ﾞ' => '゛' | 'ﾟ' => '゜'
  | c => c

/-- `convertHalfWidthToFullWidth`: the table is applied only to characters
matched by the class `[ｱ-ﾝﾞﾟ]` (U+FF71..U+FF9F); note that this leaves
U+FF66..U+FF70 (ｦ, the small kana and ｰ) unconverted even though the table
has entries for them. -/
def convertHalfWidthToFullWidth (l : Str) : Str :=
  l.map fun c => if 0xFF71 ≤ c.toNat ∧ c.toNat ≤ 0xFF9F then halfToFull c else c

/-- Character class of the punctuation-only test
`/^[。、,.!?！？\d\s]+$/`. -/
def punctOnlyClass (c : Char) : Bool :=
  c = '。' || c = '、' || c = ',' || c = '.' || c = '!' || c = '?' || c = '！' || c = '？' ||
    c.isDigit || jsWhitespace c

/-- The punctuation-only test (true iff non-empty and all characters in the
class). -/
def isPunctOnly (l : Str) : Bool := !l.isEmpty && l.all punctOnlyClass

/-- JS `s.replace(/\s+/g, ' ')` (fuelled). -/
def collapseWsAux : Nat → Str → Str
  | 0, l => l
  | _, [] => []
  | fuel+1, c :: cs =>
    if jsWhitespace c then ' ' :: collapseWsAux fuel (cs.dropWhile jsWhitespace)
    else c :: collapseWsAux fuel cs

/-- Whitespace-run collapsing followed by trim
(`.replace(/\s+/g, ' ').trim()`). -/
def normalizeWs (l : Str) : Str := jsTrim (collapseWsAux l.length l)

/-- The text normalizer `cleanSubtitleText` (subtitle.ts lines 426-490),
stage for stage in source order. -/
def cleanSubtitleText (t : Str) : Str :=
  let s0 := jsTrim t
  let s1 := replaceAll "&amp;".data "&".data s0
  let s2 := replaceAll "&lt;".data "<".data s1
  let s3 := replaceAll "&gt;".data ">".data s2
  let s4 := replaceAll "&quot;".data "\"".data s3
  let s5 := replaceAll "&apos;".data [Char.ofNat 39] s4
  let s6 := replaceAll "&nbsp;".data " ".data s5
  let s7 := decodeDecEntities s6
  let s8 := decodeHexEntities s7
  let s9 := stripTimingTags s8
  let s10 := stripHtmlTags s9
  let s11 := removeMusicMarkers s10
  let s12 := stripSpeakerArrow s11
  let s13 := collapseRuns s12
  let s14 := convertHalfWidthToFullWidth s13
  if isPunctOnly s14 then [] else normalizeWs s14

/-! ### Numbers, timestamps and segments -/

/-- JS `parseFloat` on the fragments produced by timestamp splitting:
leading whitespace, an optional sign, a decimal significand and an optional
exponent.  `none` models `NaN` (no parsable prefix); `Infinity` is not
modelled (it does not arise from the inputs of this development). -/
def jsParseFloat (s : Str) : Option Rat :=
  let t := s.dropWhile jsWhitespace
  let sign : Bool := t.head? = some '-'
  let t1 := if t.head? = some '-' ∨ t.head? = some '+' then t.drop 1 else t
  let intPart := t1.takeWhile Char.isDigit
  let t2 := t1.dropWhile Char.isDigit
  let fracPart := if t2.head? = some '.' then (t2.drop 1).takeWhile Char.isDigit else []
  let t3 := if t2.head? = some '.' then (t2.drop 1).dropWhile Char.isDigit else t2
  if intPart = [] ∧ fracPart = [] then none
  else
    let mag := mkRat (natOfDigits intPart * 10 ^ fracPart.length + natOfDigits fracPart)
      (10 ^ fracPart.length)
    let expPart :=
      if t3.head? = some 'e' ∨ t3.head? = some 'E' then
        let u := t3.drop 1
        let esign : Bool := u.head? = some '-'
        let u1 := if u.head? = some '-' ∨ u.head? = some '+' then u.drop 1 else u
        let edigits := u1.takeWhile Char.isDigit
        if edigits = [] then (0 : Int)
        else if esign then -(natOfDigits edigits : Int) else (natOfDigits edigits : Int)
      else 0
    let scaled :=
      if expPart < 0 then rdiv mag (mkRat (10 ^ expPart.natAbs) 1)
      else rmul mag (mkRat (10 ^ expPart.natAbs) 1)
    some (if sign then rneg scaled else scaled)

/-- `parseSrtTime` (subtitle.ts lines 261-270): split on `,`, split the time
part on `:`; with three fields the result is `h*3600 + m*60 + s + ms/1000`
(where a missing or empty millisecond field contributes 0); otherwise 0.
`none` propagates `NaN` from `parseFloat`. -/
def parseSrtTime (s : Str) : Option Rat :=
  let commaSplit := splitOnLit ",".data s
  let time := commaSplit.headD []
  let ms := commaSplit.get? 1
  let parts := splitOnLit ":".data time
  match parts with
  | [h, m, sec] =>
    let msVal : Option Rat :=
      match ms with
      | none => some (mkRat 0 1)
      | some msStr =>
        if msStr.isEmpty then some (mkRat 0 1)
        else match jsParseFloat msStr with
          | some v => some (rdiv v (mkRat 1000 1))
          | none => none
    match jsParseFloat h, jsParseFloat m, jsParseFloat sec, msVal with
    | some hv, some mv, some sv, some msv =>
      some (radd (radd (radd (rmul hv (mkRat 3600 1)) (rmul mv (mkRat 60 1))) sv) msv)
    | _, _, _, _ => none
  | _ => some (mkRat 0 1)

/-- `parseVttTime` (subtitle.ts lines 515-526): split on `:`; three fields
give `h*3600 + m*60 + s`, two give `m*60 + s`, anything else 0. -/
def parseVttTime (s : Str) : Option Rat :=
  let parts := splitOnLit ":".data s
  match parts with
  | [h, m, sec] =>
    match jsParseFloat h, jsParseFloat m, jsParseFloat sec with
    | some hv, some mv, some sv =>
      some (radd (radd (rmul hv (mkRat 3600 1)) (rmul mv (mkRat 60 1))) sv)
    | _, _, _ => none
  | [m, sec] =>
    match jsParseFloat m, jsParseFloat sec with
    | some mv, some sv => some (radd (rmul mv (mkRat 60 1)) sv)
    | _, _ => none
  | _ => some (mkRat 0 1)

/-- `formatDuration` (helpers.ts lines 328-337).  JS `%` is the truncating
remainder (`Int.tmod`), `Math.floor` of a real division by a positive
integer is floor division (`Int.fdiv`). -/
def formatDuration (seconds : Int) : Str :=
  let hours := Int.fdiv seconds 3600
  let minutes := Int.fdiv (Int.tmod seconds 3600) 60
  let secs := Int.tmod seconds 60
  if hours > 0 then
    intToStr hours ++ [':'] ++ padStart2 (intToStr minutes) ++ [':'] ++ padStart2 (intToStr secs)
  else intToStr minutes ++ [':'] ++ padStart2 (intToStr secs)

/-- A parsed subtitle segment (the record built in `createSegmentIfValid`). -/
structure Segment where
  text : Str
  start : Rat
  duration : Rat
  timestamp : Str
deriving DecidableEq

/-- `isValidSegmentText` (subtitle.ts lines 738-740); the null/undefined
checks are vacuous in the typed model. -/
def isValidSegmentText (t : Str) : Bool := t.length > 2

/-- `createSegmentIfValid` (subtitle.ts lines 745-764): accept the candidate
only if it differs from the last accepted text, does not extend it by
`lastText ++ " "`, and its clamped duration exceeds 0.1s.  A `NaN` time
(`none`) makes `duration > 0.1` false in JS, hence `none` here. -/
def createSegmentIfValid (text : Str) (startTime endTime : Option Rat) (lastText : Str) :
    Option Segment :=
  match startTime, endTime with
  | some st, some en =>
    let duration := rmax (mkRat 0 1) (rsub en st)
    if text ≠ lastText ∧ ¬ List.isPrefixOf (lastText ++ [' ']) text ∧ mkRat 1 10 < duration then
      some ⟨text, st, duration, formatDuration (Rat.floor st)⟩
    else none
  | _, _ => none

/-! ### The SRT and VTT cue parsers (subtitle.ts lines 204-259 and 361-421) -/

/-- Test for an SRT sequence-number line (`/^\d+$/` on the trimmed line). -/
def isSeqNumberLine (l : Str) : Bool := !(jsTrim l).isEmpty && (jsTrim l).all Char.isDigit

/-- Continuation test of the SRT text-line loop:
`lines[i].trim() !== '' && !/^\d+$/.test(lines[i].trim())`. -/
def srtTextLine (l : Str) : Bool := !(jsTrim l).isEmpty && !isSeqNumberLine l

/-- The `while (i < lines.length)` loop of `parseSrtToSegments`, as a fuelled
recursion over the remaining lines carrying the last accepted text. -/
def parseSrtLinesAux : Nat → List Str → Str → List Segment
  | 0, _, _ => []
  | _, [], _ => []
  | fuel+1, line :: rest, lastText =>
    if (jsTrim line).isEmpty then parseSrtLinesAux fuel rest lastText
    else if isSeqNumberLine line then
      match rest with
      | [] => []
      | tline :: rest2 =>
        if containsStr "-->".data tline then
          let stamps := splitOnLit "-->".data tline
          if stamps.length = 2 then
            let startTime := parseSrtTime (jsTrim (stamps.headD []))
            let endTime := parseSrtTime (jsTrim (stamps.getD 1 []))
            let rawText := rest2.takeWhile srtTextLine
            let rest3 := rest2.dropWhile srtTextLine
            let textLines := (rawText.map cleanSubtitleText).filter isValidSegmentText
            if textLines ≠ [] then
              match createSegmentIfValid (joinSpace textLines) startTime endTime lastText with
              | some seg => seg :: parseSrtLinesAux fuel rest3 seg.text
              | none => parseSrtLinesAux fuel rest3 lastText
            else parseSrtLinesAux fuel rest3 lastText
          else parseSrtLinesAux fuel (tline :: rest2) lastText
        else parseSrtLinesAux fuel (tline :: rest2) lastText
    else parseSrtLinesAux fuel rest lastText

/-- `parseSrtToSegments` (subtitle.ts lines 204-259). -/
def parseSrtToSegments (content : Str) : List Segment :=
  let lines := splitOnLit "\n".data content
  parseSrtLinesAux lines.length lines []

/-- `shouldSkipVttLine` (subtitle.ts lines 769-775). -/
def shouldSkipVttLine (line : Str) : Bool :=
  List.isPrefixOf "WEBVTT".data line || List.isPrefixOf "NOTE".data line ||
    List.isPrefixOf "STYLE".data line || List.isPrefixOf "REGION".data line ||
    (jsTrim line).isEmpty

/-- `skipVttNoteBlock` (subtitle.ts lines 780-786), phrased on the list of
lines after the `NOTE` line: drop lines while non-blank and without `-->`. -/
def skipVttNoteLines (rest : List Str) : List Str :=
  rest.dropWhile fun l => !(jsTrim l).isEmpty && !containsStr "-->".data l

/-- The cue-settings keywords of the split regex
`/\s+(position|align|size|line|vertical):/`. -/
def cueSettingKeywords : List Str :=
  ["position".data, "align".data, "size".data, "line".data, "vertical".data]

/-- Whether one of the cue-settings keywords followed by `:` starts here. -/
def cueSettingAt (l : Str) : Bool :=
  cueSettingKeywords.any fun k => List.isPrefixOf (k ++ [':']) l

/-- `lines[i].split(/\s+(position|align|size|line|vertical):/)[0]`: the part
of the line before the first whitespace run that is followed by a
cue-settings keyword and `:` (the whole line if there is none). -/
def cueSettingsSplitAux : Nat → Str → Str
  | 0, l => l
  | _, [] => []
  | fuel+1, c :: cs =>
    if jsWhitespace c ∧ cueSettingAt (cs.dropWhile jsWhitespace) then []
    else c :: cueSettingsSplitAux fuel cs

/-- Cue-settings truncation, at full fuel. -/
def cueSettingsSplit (l : Str) : Str := cueSettingsSplitAux l.length l

/-- Continuation test of the VTT text-line loop:
`!lines[i].includes('-->') && lines[i].trim() !== ''`. -/
def vttTextLine (l : Str) : Bool := !containsStr "-->".data l && !(jsTrim l).isEmpty

/-- The `while (i < lines.length)` loop of `parseVttToSegments`, as a fuelled
recursion over the remaining lines carrying the last accepted text. -/
def parseVttLinesAux : Nat → List Str → Str → List Segment
  | 0, _, _ => []
  | _, [], _ => []
  | fuel+1, line :: rest, lastText =>
    if shouldSkipVttLine line then parseVttLinesAux fuel rest lastText
    else if jsTrim line = "NOTE".data then parseVttLinesAux fuel (skipVttNoteLines rest) lastText
    else if containsStr "-->".data line then
      let stamps := splitOnLit "-->".data (cueSettingsSplit line)
      if stamps.length = 2 then
        let startTime := parseVttTime (jsTrim (stamps.headD []))
        let endTime := parseVttTime (jsTrim (stamps.getD 1 []))
        let rawText := rest.takeWhile vttTextLine
        let rest2 := rest.dropWhile vttTextLine
        let textLines := (rawText.map cleanSubtitleText).filter isValidSegmentText
        if textLines ≠ [] then
          match createSegmentIfValid (joinSpace textLines) startTime endTime lastText with
          | some seg => seg :: parseVttLinesAux fuel rest2 seg.text
          | none => parseVttLinesAux fuel rest2 lastText
        else parseVttLinesAux fuel rest2 lastText
      else parseVttLinesAux fuel rest lastText
    else parseVttLinesAux fuel rest lastText

/-- `parseVttToSegments` (subtitle.ts lines 361-421). -/
def parseVttToSegments (content : Str) : List Segment :=
  let lines := splitOnLit "\n".data content
  parseVttLinesAux lines.length lines []

/-! ### The adaptive sampler `processTranscript` (subtitle.ts lines 272-359) -/

/-- Result record of `processTranscript`. -/
structure ProcessedTranscript (α : Type) where
  segments : List α
  isTruncated : Bool
  message : Option Str

/-- JS `Array.prototype.slice(s, e)` with integer arguments: negative
indices count from the end, and both ends are clamped to `[0, length]`. -/
def jsSlice {α : Type} (l : List α) (s e : Int) : List α :=
  let len : Int := l.length
  let b := if s < 0 then max (len + s) 0 else min s len
  let e2 := if e < 0 then max (len + e) 0 else min e len
  (l.take e2.toNat).drop b.toNat

/-- JS `Array.prototype.slice(s)` (one-argument form). -/
def jsSliceFrom {α : Type} (l : List α) (s : Int) : List α := jsSlice l s l.length

/-- The `'smart'` branch of `processTranscript` (subtitle.ts lines 290-322):
intro = first ⌊0.2B⌋, conclusion from `max(len-⌊B⌋+..., intro)`, middle
sampled with a rational stride.  The `segments[idx]` truthiness test of the
source is the bounds check `0 ≤ idx < len` (segment objects are truthy). -/
def smartSample {α : Type} (l : List α) (maxSegments : Int) : ProcessedTranscript α :=
  let introCount := Rat.floor (rmul (intQ maxSegments) (mkRat 2 10))
  let middleCount := Rat.floor (rmul (intQ maxSegments) (mkRat 3 10))
  let conclusionCount := maxSegments - introCount - middleCount
  let len : Int := l.length
  let intro := jsSlice l 0 introCount
  let conclusionStart := max (len - conclusionCount) introCount
  let conclusion := jsSliceFrom l conclusionStart
  let middleSegments :=
    if middleCount > 0 ∧ conclusionStart > introCount then
      let step := rdiv (intQ (conclusionStart - introCount)) (intQ middleCount)
      (List.range middleCount.toNat).filterMap fun i =>
        let idx := Rat.floor (radd (intQ introCount) (rmul (natQ i) step))
        if idx < conclusionStart ∧ 0 ≤ idx then l.get? idx.toNat else none
    else []
  { segments := intro ++ middleSegments ++ conclusion
    isTruncated := true
    message := some ("Smart sampling: ".data ++ intToStr introCount ++ " intro + ".data ++
      natToStr middleSegments.length ++ " middle samples + ".data ++
      natToStr conclusion.length ++ " conclusion from ".data ++ natToStr l.length ++
      " total segments".data) }

/-- The `'summary'` branch of `processTranscript` (subtitle.ts lines
324-353).  Note `segments.slice(-summaryConclusion)`: for
`summaryConclusion = 0` this is `slice(0)`, i.e. the whole list. -/
def summarySample {α : Type} (l : List α) (maxSegments : Int) : ProcessedTranscript α :=
  let summaryIntro := Rat.floor (rmul (intQ maxSegments) (mkRat 1 10))
  let summaryConclusion := Rat.floor (rmul (intQ maxSegments) (mkRat 7 10))
  let summaryMiddle := maxSegments - summaryIntro - summaryConclusion
  let len : Int := l.length
  let intro := jsSlice l 0 summaryIntro
  let middleSegments :=
    if summaryMiddle > 0 then
      let middleStep := Int.fdiv (len - summaryConclusion) summaryMiddle
      (List.range summaryMiddle.toNat).filterMap fun (i : Nat) =>
        let idx := summaryIntro + (i : Int) * middleStep
        if idx < len - summaryConclusion ∧ 0 ≤ idx then l.get? idx.toNat else none
    else []
  let conclusion := jsSliceFrom l (-summaryConclusion)
  { segments := intro ++ middleSegments ++ conclusion
    isTruncated := true
    message := some ("Summary mode: focusing on conclusion (70%) with brief intro (10%) and middle samples (20%) from ".data ++
      natToStr l.length ++ " total segments".data) }

/-- `processTranscript` (subtitle.ts lines 272-359).  The source's `default`
switch case calls itself with mode `'smart'`; since the guard
`segments.length <= maxSegments` re-evaluates identically, that self-call is
unfolded here to the smart branch. -/
def processTranscript {α : Type} (l : List α) (mode : Str) (maxSegments : Int) :
    ProcessedTranscript α :=
  if (l.length : Int) ≤ maxSegments then
    { segments := l, isTruncated := false, message := none }
  else if mode = "full".data then
    { segments := jsSlice l 0 maxSegments
      isTruncated := true
      message := some ("Transcript truncated to first ".data ++ intToStr maxSegments ++
        " of ".data ++ natToStr l.length ++ " segments".data) }
  else if mode = "summary".data then summarySample l maxSegments
  else smartSample l maxSegments

/-! ### Transcript assembly (subtitle.ts lines 60-81 and 163-183) -/

/-- One raw item of the `youtube-transcript` API response (text plus
millisecond offset and duration), as consumed by `getTranscript`. -/
structure TranscriptItem where
  text : Str
  offset : Rat
  duration : Rat

/-- The per-item mapping of `getTranscript` (subtitle.ts lines 60-65): no
text cleaning happens on this path. -/
def itemToSegment (it : TranscriptItem) : Segment :=
  { text := it.text
    start := rdiv it.offset (mkRat 1000 1)
    duration := rdiv it.duration (mkRat 1000 1)
    timestamp := formatDuration (Rat.floor (rdiv it.offset (mkRat 1000 1))) }

/-- The JSON payload assembled by both transcript paths (network/CLI fields
such as `language`, `source` and `method` are I/O context and omitted). -/
structure TranscriptResponse where
  fullText : Str
  wordCount : Nat
  totalSegments : Nat
  segments : List Segment
  isTruncated : Bool
  message : Option Str

/-- The transport cap on `fullText`:
`fullText.length > 50000 ? fullText.substring(0, 50000) + '...' : fullText`. -/
def capTransport (t : Str) : Str :=
  if t.length > 50000 then t.take 50000 ++ "...".data else t

/-- The pure assembly step of `getTranscript` (subtitle.ts lines 60-81),
with the fetched `transcriptData` as input: segments are the mapped items,
`fullText` joins the raw item texts. -/
def getTranscriptAssemble (items : List TranscriptItem) (mode : Str) (maxSegments : Int) :
    TranscriptResponse :=
  let transcript := items.map itemToSegment
  let fullText := joinSpace (items.map TranscriptItem.text)
  let processed := processTranscript transcript mode maxSegments
  { fullText := capTransport fullText
    wordCount := (splitWs fullText).length
    totalSegments := transcript.length
    segments := processed.segments
    isTruncated := processed.isTruncated
    message := processed.message }

/-- The pure assembly step of `getTranscriptViaYtDlp` (subtitle.ts lines
163-183), with the downloaded subtitle file content as input: parse by
extension, join the parsed (cleaned) segment texts into `fullText`, then
sample. -/
def getTranscriptViaYtDlpAssemble (content : Str) (isVtt : Bool) (mode : Str)
    (maxSegments : Int) : TranscriptResponse :=
  let segments := if isVtt then parseVttToSegments content else parseSrtToSegments content
  let fullText := joinSpace (segments.map Segment.text)
  let processed := processTranscript segments mode maxSegments
  { fullText := capTransport fullText
    wordCount := (splitWs fullText).length
    totalSegments := segments.length
    segments := processed.segments
    isTruncated := processed.isTruncated
    message := processed.message }

/-! ### The comment classifier `CommentFilter` (types/index.ts lines 47-262) -/

/-- `CommentFilterOptions`; `none` models an absent (undefined) field. -/
structure CommentFilterOptions where
  enableFiltering : Option Bool := none
  removeSpam : Option Bool := none
  removeNoise : Option Bool := none
  removeUnrelated : Option Bool := none
deriving DecidableEq

/-- A comment as consumed by the filter: only the fields the filter reads
(`text`, `authorChannelId`, `replies`); `none` models an absent field. -/
inductive JsComment where
  | mk : Option Str → Option Str → Option (List JsComment) → JsComment

/-- The `text` field of a comment. -/
def JsComment.text : JsComment → Option Str
  | .mk t _ _ => t

/-- The `authorChannelId` field of a comment. -/
def JsComment.authorChannelId : JsComment → Option Str
  | .mk _ a _ => a

/-- The `replies` field of a comment. -/
def JsComment.replies : JsComment → Option (List JsComment)
  | .mk _ _ r => r

/-- Eat a case-insensitive literal, returning the rest. -/
def eatLitCI (pat l : Str) : Option Str :=
  if ciPrefixOf pat l then some (l.drop pat.length) else none

/-- Eat the JS regex `\s+` followed by a non-whitespace continuation: at
least one whitespace character, then greedily all of them (the following
pattern pieces never start with whitespace, so no backtracking arises). -/
def eatWs1 : Str → Option Str
  | c :: cs => if jsWhitespace c then some (cs.dropWhile jsWhitespace) else none
  | [] => none

/-- The short-URL domains of `SPAM_PATTERNS[0]`. -/
def shortUrlDomains : List Str :=
  ["bit.ly".data, "tinyurl.com".data, "goo.gl".data, "short.link".data, "cutt.ly".data,
    "ow.ly".data, "tiny.cc".data]

/-- Boundary test before a match of `\b(?:bit\.ly|...)\b`: start of string
or a preceding non-word character. -/
def boundaryBefore : Option Char → Bool
  | none => true
  | some p => !isWordChar p

/-- Boundary test after the matched domain: end of string or a following
non-word character. -/
def boundaryAfter (rest : Str) : Bool :=
  match rest.head? with
  | none => true
  | some x => !isWordChar x

/-- `SPAM_PATTERNS[0]`: `/\b(?:bit\.ly|tinyurl\.com|goo\.gl|short\.link|cutt\.ly|ow\.ly|tiny\.cc)\b/gi`. -/
def spamShortUrlAux : Nat → Option Char → Str → Bool
  | 0, _, _ => false
  | _, _, [] => false
  | fuel+1, prev, c :: cs =>
    (boundaryBefore prev && shortUrlDomains.any fun d =>
      ciPrefixOf d (c :: cs) && boundaryAfter (List.drop d.length (c :: cs))) ||
      spamShortUrlAux fuel (some c) cs

/-- `SPAM_PATTERNS[0]`, scanned from the start. -/
def spamShortUrl (l : Str) : Bool := spamShortUrlAux l.length none l

/-- The first alternation group of `SPAM_PATTERNS[1]`:
`check\s*out|visit|click|watch|see` (all rests reachable at this point). -/
def promoFirst (l : Str) : List Str :=
  (match eatLitCI "check".data l with
   | some r =>
     match eatLitCI "out".data (r.dropWhile jsWhitespace) with
     | some r2 => [r2]
     | none => []
   | none => []) ++
    (["visit".data, "click".data, "watch".data, "see".data].filterMap fun w => eatLitCI w l)

/-- Match of `SPAM_PATTERNS[1]` starting at this position. -/
def promoMatchAt (l : Str) : Bool :=
  (promoFirst l).any fun r1 =>
    match eatWs1 r1 with
    | none => false
    | some r2 =>
      (["my".data, "our".data].filterMap fun w => eatLitCI w r2).any fun r3 =>
        match eatWs1 r3 with
        | none => false
        | some r4 =>
          ["channel".data, "profile".data, "video".data, "link".data].any fun w => ciPrefixOf w r4

/-- `SPAM_PATTERNS[1]`:
`/(?:check\s*out|visit|click|watch|see)\s+(?:my|our)\s+(?:channel|profile|video|link)/gi`. -/
def spamPromo (l : Str) : Bool := l.tails.any promoMatchAt

/-- Scheme match for `https?:\/\/` (case-insensitive), returning its length. -/
def schemeAt (l : Str) : Option Nat :=
  if ciPrefixOf "https://".data l then some 8
  else if ciPrefixOf "http://".data l then some 7 else none

/-- Head is a non-whitespace character (the mandatory `[^\s]+` character
after a URL scheme). -/
def nonWsHead (l : Str) : Bool :=
  match l.head? with
  | some c => !jsWhitespace c
  | none => false

/-- `SPAM_PATTERNS[2]`: `/(?:https?:\/\/[^\s]+.*){3,}/gi` — three scheme
occurrences, each followed by at least one non-whitespace character, with
the characters strictly between consecutive groups free of line terminators
(they are consumed by `[^\s]+`/`.*`; every non-whitespace character already
matches `.`). -/
def spamThreeUrls (l : Str) : Bool :=
  let n := l.length
  (List.range n).any fun i1 =>
    match schemeAt (l.drop i1) with
    | none => false
    | some s1 =>
      nonWsHead (l.drop (i1 + s1)) &&
        ((List.range n).any fun i2 =>
          decide (i1 + s1 + 1 ≤ i2) &&
            ((l.drop (i1 + s1 + 1)).take (i2 - (i1 + s1 + 1))).all dotMatches &&
            match schemeAt (l.drop i2) with
            | none => false
            | some s2 =>
              nonWsHead (l.drop (i2 + s2)) &&
                ((List.range n).any fun i3 =>
                  decide (i2 + s2 + 1 ≤ i3) &&
                    ((l.drop (i2 + s2 + 1)).take (i3 - (i2 + s2 + 1))).all dotMatches &&
                    match schemeAt (l.drop i3) with
                    | none => false
                    | some s3 => nonWsHead (l.drop (i3 + s3))))

/-- `isRepeatedText` (types/index.ts lines 152-172): lower-case, split on
`/\s+/` (note: a leading or trailing whitespace run contributes an empty
token to the count), require ≥ 5 tokens, and flag if some token of length
> 2 occurs more than `0.4 * tokenCount` times. -/
def isRepeatedText (t : Str) : Bool :=
  let words := splitWs (t.map lowerChar)
  if words.length < 5 then false
  else words.any fun w =>
    w.length > 2 && decide (rmul (natQ words.length) (mkRat 4 10) < natQ (words.count w))

/-- `NOISE_PATTERNS[0]`: `/<[^>]+>/g`. -/
def noiseHtmlTag (l : Str) : Bool :=
  l.tails.any fun t =>
    match t with
    | '<' :: rest =>
      !(rest.takeWhile fun c => c ≠ '>').isEmpty &&
        (rest.dropWhile fun c => c ≠ '>').head? = some '>'
    | _ => false

/-- `NOISE_PATTERNS[1]`: `/&lt;|&gt;|&amp;|&quot;|&#\d+;/g`. -/
def noiseEntity (l : Str) : Bool :=
  containsStr "&lt;".data l || containsStr "&gt;".data l || containsStr "&amp;".data l ||
    containsStr "&quot;".data l ||
    l.tails.any fun t =>
      match t with
      | '&' :: '#' :: rest =>
        !(rest.takeWhile Char.isDigit).isEmpty &&
          (rest.dropWhile Char.isDigit).head? = some ';'
      | _ => false

/-- `NOISE_PATTERNS[2]`: `/(.)\1{5,}/g` — a run of ≥ 6 identical
dot-matching characters. -/
def noiseRepeatRun (l : Str) : Bool :=
  l.tails.any fun t =>
    match t with
    | c :: cs => dotMatches c && (cs.takeWhile fun x => x = c).length + 1 ≥ 6
    | [] => false

/-- Code points matched by `[\u{1F300}-\u{1F9FF}]` (the `u` flag makes this
a code-point class). -/
def isEmojiRange (c : Char) : Bool := 0x1F300 ≤ c.toNat && c.toNat ≤ 0x1F9FF

/-- `NOISE_PATTERNS[3]`: `/[\u{1F300}-\u{1F9FF}]{5,}/gu`. -/
def noiseEmojiRun (l : Str) : Bool :=
  l.tails.any fun t => (t.takeWhile isEmojiRange).length ≥ 5

/-- Characters removed by `isGibberish` before analysis
(`/[\s\.,!?;:'"]/g`). -/
def gibberishStripChars (c : Char) : Bool :=
  jsWhitespace c || c = '.' || c = ',' || c = '!' || c = '?' || c = ';' || c = ':' ||
    c = Char.ofNat 39 || c = '"'

/-- Home-row characters of `/^[asdfghjkl]+$/i`. -/
def isHomeRowChar (c : Char) : Bool := "asdfghjkl".data.contains (lowerChar c)

/-- Consonants of `/[bcdfghjklmnpqrstvwxyz]{8,}/gi`. -/
def isConsonantChar (c : Char) : Bool := "bcdfghjklmnpqrstvwxyz".data.contains (lowerChar c)

/-- Whether some position starts a run of ≥ 8 consonants. -/
def consonantRun8 (l : Str) : Bool :=
  l.tails.any fun t => (t.takeWhile isConsonantChar).length ≥ 8

/-- Full-string repetition of fixed blocks, `/^(b1|b2|...)+$/i` (fuelled;
all blocks are non-empty so each step consumes characters). -/
def blocksRepeatAux (blocks : List Str) : Nat → Str → Bool
  | _, [] => true
  | 0, _ => false
  | fuel+1, l =>
    blocks.any fun b =>
      match eatLitCI b l with
      | some r => if r.length < l.length then blocksRepeatAux blocks fuel r else false
      | none => false

/-- Full-string block repetition (requires at least one block). -/
def blocksRepeatCI (blocks : List Str) (l : Str) : Bool :=
  !l.isEmpty && blocksRepeatAux blocks l.length l

/-- `isGibberish` (types/index.ts lines 174-222). -/
def isGibberish (t : Str) : Bool :=
  let cleanText := t.filter fun c => !gibberishStripChars c
  if cleanText.length < 8 then false
  else if containsStrCI "github".data t || containsStrCI "stackoverflow".data t ||
      containsStrCI "http://".data t || containsStrCI "https://".data t ||
      containsStrCI "error:".data t || containsStrCI "warning:".data t ||
      containsStrCI "fatal:".data t || containsStrCI "npm".data t ||
      containsStrCI "yarn".data t || containsStrCI "pip".data t ||
      containsStrCI "docker".data t || containsStrCI "git".data t then false
  else if blocksRepeatCI ["asdf".data, "qwer".data, "zxcv".data, "hjkl".data, "yuio".data]
      cleanText then true
  else if blocksRepeatCI ["abcd".data, "efgh".data, "ijkl".data, "mnop".data, "qrst".data,
      "uvwx".data] cleanText then true
  else if !cleanText.isEmpty && cleanText.all Char.isDigit then true
  else if !cleanText.isEmpty && cleanText.all isHomeRowChar then true
  else consonantRun8 cleanText

/-- Match of `BOT_PATTERNS[0]` starting at this position:
`who(?:'s| is)?\s+(?:watching|here|listening)\s+(?:in|from)?\s*\d{4}`
(all alternation/option choices tried, as regex backtracking would). -/
def whoMatchAt (l : Str) : Bool :=
  match eatLitCI "who".data l with
  | none => false
  | some r =>
    let opts := [r] ++
      (match eatLitCI ([Char.ofNat 39] ++ "s".data) r with
       | some x => [x]
       | none => []) ++
      (match eatLitCI " is".data r with
       | some x => [x]
       | none => [])
    opts.any fun r1 =>
      match eatWs1 r1 with
      | none => false
      | some r2 =>
        (["watching".data, "here".data, "listening".data].filterMap fun w =>
          eatLitCI w r2).any fun r3 =>
          match eatWs1 r3 with
          | none => false
          | some r4 =>
            let r5opts := [r4] ++
              (match eatLitCI "in".data r4 with
               | some x => [x]
               | none => []) ++
              (match eatLitCI "from".data r4 with
               | some x => [x]
               | none => [])
            r5opts.any fun r5 =>
              let d := r5.dropWhile jsWhitespace
              (d.take 4).length = 4 && (d.take 4).all Char.isDigit

/-- `BOT_PATTERNS[0]`:
`/who(?:'s| is)?\s+(?:watching|here|listening)\s+(?:in|from)?\s*\d{4}/gi`. -/
def botWhoWatching (t : Str) : Bool := t.tails.any whoMatchAt

/-- `BOT_PATTERNS[1]`: `/^(?:first|second|third|\d+(?:st|nd|rd|th))!?$/i`. -/
def botOrdinal (t : Str) : Bool :=
  let core : Str → Bool := fun r => r = [] || r = ['!']
  (match eatLitCI "first".data t with
   | some r => core r
   | none => false) ||
    (match eatLitCI "second".data t with
     | some r => core r
     | none => false) ||
    (match eatLitCI "third".data t with
     | some r => core r
     | none => false) ||
    (let ds := t.takeWhile Char.isDigit
     !ds.isEmpty && (["st".data, "nd".data, "rd".data, "th".data].any fun suf =>
       match eatLitCI suf (t.drop ds.length) with
       | some r => core r
       | none => false))

/-- `BOT_PATTERNS[2]`: `/^(?:anyone|who)\s+(?:else\s+)?(?:here|watching|listening)/i`. -/
def botAnyoneElse (t : Str) : Bool :=
  (["anyone".data, "who".data].filterMap fun w => eatLitCI w t).any fun r1 =>
    match eatWs1 r1 with
    | none => false
    | some r2 =>
      let opts := [r2] ++
        (match eatLitCI "else".data r2 with
         | some x =>
           match eatWs1 x with
           | some y => [y]
           | none => []
         | none => [])
      opts.any fun r3 =>
        ["here".data, "watching".data, "listening".data].any fun w => ciPrefixOf w r3

/-- `BOT_PATTERNS[3]`: `/^(?:like|thumbs?\s*up)\s+if\s+you/i`. -/
def botLikeIf (t : Str) : Bool :=
  let thumbOpts : List Str :=
    match eatLitCI "thumb".data t with
    | none => []
    | some x =>
      ([x] ++
        (match eatLitCI "s".data x with
         | some y => [y]
         | none => [])).filterMap fun z => eatLitCI "up".data (z.dropWhile jsWhitespace)
  let firstOpts := (match eatLitCI "like".data t with
    | some x => [x]
    | none => []) ++ thumbOpts
  firstOpts.any fun r1 =>
    match eatWs1 r1 with
    | none => false
    | some r2 =>
      match eatLitCI "if".data r2 with
      | none => false
      | some r3 =>
        match eatWs1 r3 with
        | none => false
        | some r4 => ciPrefixOf "you".data r4

/-- The spam stage of `shouldFilterComment`: the three `SPAM_PATTERNS` in
order, then `isRepeatedText`. -/
def spamStage (text : Str) : Bool :=
  spamShortUrl text || spamPromo text || spamThreeUrls text || isRepeatedText text

/-- The noise stage of `shouldFilterComment`: the four `NOISE_PATTERNS` in
order, then the empty-trim check, then `isGibberish`. -/
def noiseStage (text : Str) : Bool :=
  noiseHtmlTag text || noiseEntity text || noiseRepeatRun text || noiseEmojiRun text ||
    (jsTrim text).isEmpty || isGibberish text

/-- The bot/unrelated stage of `shouldFilterComment`: the four
`BOT_PATTERNS` in order. -/
def botStage (text : Str) : Bool :=
  botWhoWatching text || botOrdinal text || botAnyoneElse text || botLikeIf text

/-- The author guard of `shouldFilterComment`:
`videoAuthorChannelId && comment.authorChannelId === videoAuthorChannelId`.
JS truthiness makes the guard require a present, *non-empty* channel id. -/
def authorExempt (c : JsComment) (videoAuthorChannelId : Option Str) : Bool :=
  (match videoAuthorChannelId with
    | some v => !v.isEmpty
    | none => false) && c.authorChannelId == videoAuthorChannelId

/-- `CommentFilter.shouldFilterComment` (types/index.ts lines 79-150). -/
def shouldFilterComment (c : JsComment) (opts : CommentFilterOptions)
    (videoAuthorChannelId : Option Str) : Bool :=
  if opts.enableFiltering = some false then false
  else if authorExempt c videoAuthorChannelId then false
  else
    let text := c.text.getD []
    if opts.removeSpam ≠ some false ∧ spamStage text then true
    else if opts.removeNoise ≠ some false ∧ noiseStage text then true
    else if opts.removeUnrelated ≠ some false ∧ botStage text then true
    else false

/-- `CommentFilter.filterComments` (types/index.ts lines 224-242), with the
in-place filtering of a kept comment's `replies` array modelled by
rebuilding the comment. -/
def filterComments (comments : List JsComment) (opts : CommentFilterOptions)
    (videoAuthorChannelId : Option Str) : List JsComment :=
  if opts.enableFiltering = some false then comments
  else
    comments.filterMap fun c =>
      if shouldFilterComment c opts videoAuthorChannelId then none
      else some (match c with
        | .mk t a (some rs) =>
          .mk t a (some (rs.filter fun r => !shouldFilterComment r opts videoAuthorChannelId))
        | c => c)

/-- The record returned by `getFilterStats`. -/
structure FilterStats where
  total : Nat
  filtered : Nat
  kept : Nat
  filterRate : Str

/-- JS `x.toFixed(1)` for the non-negative percentages arising in
`getFilterStats` (rounding half up; the double-precision detail of
`toFixed` is not modelled). -/
def toFixed1 (q : Rat) : Str :=
  let scaled := (Rat.floor (radd (rmul q (mkRat 10 1)) (mkRat 1 2))).toNat
  natToStr (scaled / 10) ++ ".".data ++ natToStr (scaled % 10)

/-- `CommentFilter.getFilterStats` (types/index.ts lines 244-261). -/
def getFilterStats (comments : List JsComment) (opts : CommentFilterOptions)
    (videoAuthorChannelId : Option Str) : FilterStats :=
  let total := comments.length
  let filtered := (comments.filter fun c => shouldFilterComment c opts videoAuthorChannelId).length
  { total := total
    filtered := filtered
    kept := total - filtered
    filterRate :=
      (if total > 0 then toFixed1 (rmul (rdiv (natQ filtered) (natQ total)) (mkRat 100 1))
       else "0".data) ++ "%".data }

/-- Modelled from the spec (for comparison with `isRepeatedText` in claim
C8): "tokenizing on whitespace, lower-casing, counting tokens of length >2,
and flagging if any single token exceeds 40% of total token count in a
comment of ≥5 tokens" — with tokens read as the whitespace-separated words
of the text (no empty tokens). -/
def specRepeatedTokenRule (t : Str) : Bool :=
  let tokens := (splitWs (t.map lowerChar)).filter fun w => !w.isEmpty
  tokens.length ≥ 5 && tokens.any fun w =>
    w.length > 2 && decide (rmul (natQ tokens.length) (mkRat 4 10) < natQ (tokens.count w))

/-! ### Definitions supporting the claim statements -/

/-- The duplicate collapser: the `lastText` accumulation loop shared by
`parseSrtToSegments` and `parseVttToSegments` (subtitle.ts lines 239-249
and 400-410), abstracted over the already-normalized cue list
`(text, startTime, endTime)`. -/
def collapseCues : List (Str × Rat × Rat) → Str → List Segment
  | [], _ => []
  | (t, s, e) :: rest, lastText =>
    match createSegmentIfValid t (some s) (some e) lastText with
    | some seg => seg :: collapseCues rest seg.text
    | none => collapseCues rest lastText

/-- The repeated-token condition of claim C8 as amended: tokenization by the
JS `split(/\s+/)` (so a leading or trailing whitespace run contributes an
empty token to the count), then the ≥5-token / >40% rule. -/
def amendedRepeatedTokenRule (t : Str) : Bool :=
  let tokens := splitWs (t.map lowerChar)
  decide (5 ≤ tokens.length) && tokens.any fun w =>
    w.length > 2 && decide (rmul (natQ tokens.length) (mkRat 4 10) < natQ (tokens.count w))

/-- The segment invariant of claim C10: duration strictly above 0.1 and a
text assembled (by space-joining) from non-empty list of cleaned lines, each
of length > 2. -/
def SegMeetsInvariant (seg : Segment) : Prop :=
  mkRat 1 10 < seg.duration ∧
    ∃ ls : List Str, ls ≠ [] ∧
      (∀ t ∈ ls, isValidSegmentText t = true ∧ ∃ raw, t = cleanSubtitleText raw) ∧
      seg.text = joinSpace ls

/-- The intro count the sampler computes for a mode and budget (claim C5):
⌊0.1·B⌋ in summary mode, ⌊0.2·B⌋ in smart mode (and in the fall-through
default). -/
def introCountOf (mode : Str) (maxSegments : Int) : Int :=
  if mode = "summary".data then Rat.floor (rmul (intQ maxSegments) (mkRat 1 10))
  else Rat.floor (rmul (intQ maxSegments) (mkRat 2 10))

/-- The two-cue SRT input of claim C3. -/
def srtTwoCueInput : Str :=
  ("1\n00:00:01,000 --> 00:00:03,000\nこんにちは\n\n2\n00:00:03,500 --> 00:00:06,000\nこんにちは世界\n").data

/-- An SRT input whose single cue has a 2-character text (claim C10's
short-reply scenario). -/
def srtShortReplyInput : Str := ("1\n00:00:01,000 --> 00:00:03,000\nok\n").data
theorem rmul_eq (a b : Rat) : rmul a b = a * b := by
  rw [rmul, Rat.mkRat_eq_div]
  push_cast
  rw [div_mul_eq_div_div_swap, mul_div_assoc, Rat.num_div_den, mul_comm, mul_div_assoc,
    Rat.num_div_den, mul_comm]

theorem radd_eq (a b : Rat) : radd a b = a + b := by
  rw [radd, Rat.mkRat_eq_div]
  push_cast
  conv_rhs => rw [← Rat.num_div_den a, ← Rat.num_div_den b,
    div_add_div _ _ (by positivity) (by positivity)]
  ring_nf

theorem rsub_eq (a b : Rat) : rsub a b = a - b := by
  rw [rsub, Rat.mkRat_eq_div]
  push_cast
  conv_rhs => rw [← Rat.num_div_den a, ← Rat.num_div_den b,
    div_sub_div _ _ (by positivity) (by positivity)]
  ring_nf

theorem rinv_eq (a : Rat) : rinv a = a⁻¹ := by
  rw [rinv, Rat.mkRat_eq_divInt, Rat.inv_def']
  rcases lt_trichotomy a.num 0 with h | h | h
  · rw [Int.sign_eq_neg_one_of_neg h]
    have hab : (a.num.natAbs : Int) = -a.num := Int.ofNat_natAbs_of_nonpos (le_of_lt h)
    rw [hab, show (-1 : Int) * a.den = -(a.den : Int) by ring, Rat.neg_divInt_neg]
  · simp [h]
  · rw [Int.sign_eq_one_of_pos h]
    have hab : (a.num.natAbs : Int) = a.num := Int.natAbs_of_nonneg (le_of_lt h)
    rw [hab, one_mul]

theorem rdiv_eq (a b : Rat) : rdiv a b = a / b := by
  rw [rdiv, rmul_eq, rinv_eq, div_eq_mul_inv]

theorem rneg_eq (a : Rat) : rneg a = -a := by
  rw [rneg, Rat.mkRat_eq_divInt, ← Rat.neg_def]

theorem rmax_eq (a b : Rat) : rmax a b = max a b := by
  rw [rmax, max_def]
  rcases lt_trichotomy a b with h | h | h
  · simp [h, le_of_lt h]
  · simp [h]
  · simp [not_lt_of_lt h, not_le_of_lt h]

theorem rfloor_eq (q : Rat) : q.floor = ⌊q⌋ := by rw [Rat.floor_def', Rat.floor_def]

theorem intQ_eq (n : Int) : intQ n = (n : Rat) := by
  rw [intQ, Rat.mkRat_eq_div]
  simp

theorem natQ_eq (n : Nat) : natQ n = (n : Rat) := by
  rw [natQ, Rat.mkRat_eq_div]
  simp


/-! ### Claim C1: the progressive-duplicate law -/

/-- C1 (counterexample): three consecutive cues "hello", "hello world",
"hello world today", all with duration 1s > 0.1s, do *not* collapse to the
single segment "hello world today" — the collapser accepts "hello" first
and then rejects both extensions, since each begins with `"hello" ++ " "`. -/
theorem c1_counterexample :
    (collapseCues [("hello".data, mkRat 0 1, mkRat 1 1),
      ("hello world".data, mkRat 1 1, mkRat 2 1),
      ("hello world today".data, mkRat 2 1, mkRat 3 1)] []).map Segment.text ≠
      ["hello world today".data] ∧
    mkRat 1 10 < rsub (mkRat 1 1) (mkRat 0 1) ∧
    mkRat 1 10 < rsub (mkRat 2 1) (mkRat 1 1) ∧
    mkRat 1 10 < rsub (mkRat 3 1) (mkRat 2 1) := by decide

/-- C1 (amended): for three consecutive raw cues "hello", "hello world",
"hello world today", each with duration > 0.1s, the collapser's output
contains only the single segment "hello" — the *first* text of the
progressive staircase is kept and each pure progressive extension is
dropped. -/
theorem c1_progressive_collapse_keeps_first (s1 e1 s2 e2 s3 e3 : Rat)
    (h1 : mkRat 1 10 < rsub e1 s1) (h2 : mkRat 1 10 < rsub e2 s2)
    (h3 : mkRat 1 10 < rsub e3 s3) :
    (collapseCues [("hello".data, s1, e1), ("hello world".data, s2, e2),
      ("hello world today".data, s3, e3)] []).map Segment.text = ["hello".data] := by
  have d1 : mkRat 1 10 < rmax (mkRat 0 1) (rsub e1 s1) := by
    rw [rmax_eq]
    exact lt_max_iff.mpr (Or.inr h1)
  simp only [collapseCues, createSegmentIfValid]
  rw [if_pos ⟨by decide, by decide, d1⟩]
  simp only [collapseCues, createSegmentIfValid]
  rw [if_neg fun hc => hc.2.1 (by decide)]
  rw [if_neg fun hc => hc.2.1 (by decide)]
  rfl

/-- C1 (witness): the amended law at the concrete durations 1s, 1s, 1s. -/
theorem c1_witness :
    mkRat 1 10 < rsub (mkRat 1 1) (mkRat 0 1) ∧
    (collapseCues [("hello".data, mkRat 0 1, mkRat 1 1),
      ("hello world".data, mkRat 1 1, mkRat 2 1),
      ("hello world today".data, mkRat 2 1, mkRat 3 1)] []).map Segment.text =
      ["hello".data] :=
  ⟨by decide, c1_progressive_collapse_keeps_first (mkRat 0 1) (mkRat 1 1) (mkRat 1 1)
    (mkRat 2 1) (mkRat 2 1) (mkRat 3 1) (by decide) (by decide) (by decide)⟩

/-! ### Claim C3: the two-cue SRT scenario -/

/-- C3 (counterexample): parsing the two-cue SRT input yields two segments,
not the single segment "こんにちは世界" the claim predicts — the second
text extends the first *without* a space separator, so the progressive
check `startsWith(lastText + " ")` does not fire. -/
theorem c3_counterexample :
    (parseSrtToSegments srtTwoCueInput).map Segment.text ≠ ["こんにちは世界".data] ∧
    (parseSrtToSegments srtTwoCueInput).length = 2 := by decide

/-- C3 (amended): parsing the two-cue SRT input yields exactly two
segments "こんにちは" (start 1s, duration 2s) and "こんにちは世界"
(start 3.5s, duration 2.5s); the first cue is *not* dropped. -/
theorem c3_two_cue_scenario :
    (parseSrtToSegments srtTwoCueInput).map Segment.text =
      ["こんにちは".data, "こんにちは世界".data] ∧
    (parseSrtToSegments srtTwoCueInput).map Segment.start = [mkRat 1 1, mkRat 7 2] ∧
    (parseSrtToSegments srtTwoCueInput).map Segment.duration = [mkRat 2 1, mkRat 5 2] := by
  decide

/-! ### Claim C4: `fullText` is the pre-sampling join -/

/-- C4: on both transcript paths, `fullText` is the transport-capped
space-join of the texts of *all* pre-sampling segments, for every sampling
mode and every `maxSegments`; on the yt-dlp path those texts are exactly
the parser's cleaned segment texts, and on the API path they are the raw
item texts that also become the segment texts (no path-specific cleaning
difference between `fullText` and `segments`). -/
theorem c4_fulltext_presampling :
    (∀ (content : Str) (isVtt : Bool) (mode : Str) (maxSegments : Int),
      (getTranscriptViaYtDlpAssemble content isVtt mode maxSegments).fullText =
        capTransport (joinSpace
          ((if isVtt then parseVttToSegments content else parseSrtToSegments content).map
            Segment.text))) ∧
    (∀ (items : List TranscriptItem) (mode : Str) (maxSegments : Int),
      (getTranscriptAssemble items mode maxSegments).fullText =
        capTransport (joinSpace ((items.map itemToSegment).map Segment.text))) := by
  constructor
  · intro content isVtt mode maxSegments
    rfl
  · intro items mode maxSegments
    show capTransport (joinSpace (items.map TranscriptItem.text)) = _
    rw [List.map_map]
    rfl

/-! ### Claim C6: the author exemption -/

/-- C6 (counterexample): with `videoAuthorChannelId = ""` and a comment
whose `authorChannelId` is also `""`, the ids are equal and yet the bot
text "First!" gets filtered — the guard requires a *truthy* id and skips
the exemption for the empty string. -/
theorem c6_counterexample :
    (JsComment.mk (some "First!".data) (some []) none).authorChannelId = some [] ∧
    shouldFilterComment (JsComment.mk (some "First!".data) (some []) none) {} (some []) =
      true := by decide

/-- C6 (amended): for every comment whose `authorChannelId` equals the
*non-empty* `videoAuthorChannelId` passed to the classifier,
`shouldFilterComment` returns `false` regardless of the comment's text and
of the filter options. -/
theorem c6_author_exemption (c : JsComment) (opts : CommentFilterOptions) (v : Str)
    (hv : v ≠ []) (hc : c.authorChannelId = some v) :
    shouldFilterComment c opts (some v) = false := by
  have hex : authorExempt c (some v) = true := by
    unfold authorExempt
    rw [hc]
    cases v with
    | nil => exact absurd rfl hv
    | cons a as => simp [List.isEmpty]
  unfold shouldFilterComment
  by_cases he : opts.enableFiltering = some false
  · rw [if_pos he]
  · rw [if_neg he, if_pos hex]

/-- C6 (witness): the uploader's own spam-looking comment is kept. -/
theorem c6_witness :
    "UCabc".data ≠ ([] : Str) ∧
    shouldFilterComment
      (JsComment.mk (some "check out my channel".data) (some "UCabc".data) none) {}
      (some "UCabc".data) = false :=
  ⟨by decide,
    c6_author_exemption (JsComment.mk (some "check out my channel".data)
      (some "UCabc".data) none) {} "UCabc".data (by decide) rfl⟩

/-! ### Claim C7: the disable bypass -/

/-- C7: with `enableFiltering = false`, `filterComments` returns the input
collection unchanged (no reply array is touched since the function returns
before any per-comment work), `shouldFilterComment` is `false` on every
comment, and `getFilterStats` reports `filtered = 0`. -/
theorem c7_disable_bypass (comments : List JsComment) (opts : CommentFilterOptions)
    (v : Option Str) (h : opts.enableFiltering = some false) :
    filterComments comments opts v = comments ∧
    (∀ c, shouldFilterComment c opts v = false) ∧
    (getFilterStats comments opts v).filtered = 0 := by
  have hs : ∀ c, shouldFilterComment c opts v = false := by
    intro c
    unfold shouldFilterComment
    rw [if_pos h]
  refine ⟨?_, hs, ?_⟩
  · unfold filterComments
    rw [if_pos h]
  · unfold getFilterStats
    simp [hs]

/-- C7 (witness): the bypass at a concrete one-comment collection carrying
a reply, with `enableFiltering := false`. -/
theorem c7_witness :
    filterComments
      [JsComment.mk (some "First!".data) none (some [JsComment.mk (some []) none none])]
      { enableFiltering := some false } none =
      [JsComment.mk (some "First!".data) none (some [JsComment.mk (some []) none none])] ∧
    shouldFilterComment (JsComment.mk (some "First!".data) none none)
      { enableFiltering := some false } none = false ∧
    (getFilterStats [JsComment.mk (some "First!".data) none none]
      { enableFiltering := some false } none).filtered = 0 :=
  ⟨(c7_disable_bypass _ _ _ rfl).1,
   (c7_disable_bypass [] { enableFiltering := some false } none rfl).2.1 _,
   (c7_disable_bypass _ _ _ rfl).2.2⟩

/-! ### Claim C8: the repeated-token spam rule -/

/-- C8 (counterexample): on the text `" asdf asdf asdf bb"` (leading
space), the comment *is* flagged although the claim's tokenization
("tokenizing its text on whitespace") yields only the four tokens
`asdf, asdf, asdf, bb` and hence fails the ≥5-token minimum: the JS
`split(/\s+/)` used by the code contributes a fifth, empty, leading token. -/
theorem c8_counterexample :
    isRepeatedText " asdf asdf asdf bb".data = true ∧
    shouldFilterComment (JsComment.mk (some " asdf asdf asdf bb".data) none none) {} none =
      true ∧
    specRepeatedTokenRule " asdf asdf asdf bb".data = false := by decide

/-- C8 (amended): with spam filtering active and none of the three earlier
spam patterns matching, the spam stage flags a comment exactly by
`isRepeatedText`, which equals (for every string) the rule "tokenize with
JS `split(/\s+/)` — counting a leading/trailing empty token — lower-case,
and flag at ≥5 tokens when some token of length > 2 exceeds 40% of the
token count"; a comment satisfying that rule is filtered. -/
theorem c8_repeated_token_amended (c : JsComment) (opts : CommentFilterOptions)
    (v : Option Str) (hen : opts.enableFiltering ≠ some false)
    (hsp : opts.removeSpam ≠ some false) (hex : authorExempt c v = false)
    (h1 : spamShortUrl (c.text.getD []) = false) (h2 : spamPromo (c.text.getD []) = false)
    (h3 : spamThreeUrls (c.text.getD []) = false) :
    (∀ t : Str, isRepeatedText t = amendedRepeatedTokenRule t) ∧
    spamStage (c.text.getD []) = isRepeatedText (c.text.getD []) ∧
    (isRepeatedText (c.text.getD []) = true → shouldFilterComment c opts v = true) := by
  have heq : ∀ t : Str, isRepeatedText t = amendedRepeatedTokenRule t := by
    intro t
    simp only [isRepeatedText, amendedRepeatedTokenRule]
    by_cases hlen : (splitWs (t.map lowerChar)).length < 5
    · rw [if_pos hlen]
      have hd : decide (5 ≤ (splitWs (t.map lowerChar)).length) = false := by
        simp [Nat.lt_iff_add_one_le] at hlen ⊢
        omega
      rw [hd, Bool.false_and]
    · rw [if_neg hlen]
      have hd : decide (5 ≤ (splitWs (t.map lowerChar)).length) = true := by
        simp [Nat.le_of_not_lt hlen]
      rw [hd, Bool.true_and]
  have hstage : spamStage (c.text.getD []) = isRepeatedText (c.text.getD []) := by
    unfold spamStage
    rw [h1, h2, h3]
    simp
  refine ⟨heq, hstage, ?_⟩
  intro hrep
  unfold shouldFilterComment
  rw [if_neg hen, if_neg (by simp [hex]), if_pos ⟨hsp, by rw [hstage, hrep]⟩]

/-- C8 (witness): the amended rule at the concrete text
"asdf asdf asdf asdf asdf" — flagged, with the rule and `isRepeatedText`
agreeing. -/
theorem c8_witness :
    isRepeatedText "asdf asdf asdf asdf asdf".data =
      amendedRepeatedTokenRule "asdf asdf asdf asdf asdf".data ∧
    shouldFilterComment (JsComment.mk (some "asdf asdf asdf asdf asdf".data) none none) {}
      none = true :=
  ⟨(c8_repeated_token_amended (JsComment.mk (some "asdf asdf asdf asdf asdf".data) none none)
      {} none (by decide) (by decide) (by decide) (by decide) (by decide) (by decide)).1 _,
   (c8_repeated_token_amended (JsComment.mk (some "asdf asdf asdf asdf asdf".data) none none)
      {} none (by decide) (by decide) (by decide) (by decide) (by decide) (by decide)).2.2
    (by decide)⟩

/-! ### Claim C9: degenerate budgets -/

/-- C9 (counterexample): with `maxSegments = 0` and a one-segment list, the
summary branch returns the *whole* list, not an empty intro/conclusion:
`summaryConclusion = 0` makes the conclusion `segments.slice(-0)`, which is
`slice(0)`, the entire array. -/
theorem c9_counterexample :
    (processTranscript [(0 : Nat)] "summary".data 0).segments = [0] ∧
    (processTranscript [(0 : Nat)] "summary".data 0).segments ≠ [] := by decide

theorem jsSlice_zero_zero {α : Type} (l : List α) : jsSlice l 0 0 = [] := by
  simp [jsSlice]

theorem jsSliceFrom_zero {α : Type} (l : List α) : jsSliceFrom l 0 = l := by
  simp only [jsSliceFrom, jsSlice]
  rw [if_neg (show ¬((0 : Int) < 0) by omega),
    if_neg (show ¬((l.length : Int) < 0) by omega),
    min_eq_left (show (0 : Int) ≤ (l.length : Int) by omega), min_self]
  have h1 : ((l.length : Int)).toNat = l.length := by omega
  have h2 : ((0 : Int)).toNat = 0 := by omega
  rw [h1, h2, List.take_length, List.drop_zero]

theorem jsSliceFrom_len {α : Type} (l : List α) : jsSliceFrom l l.length = [] := by
  simp only [jsSliceFrom, jsSlice]
  rw [if_neg (show ¬((l.length : Int) < 0) by omega), min_self]
  have h1 : ((l.length : Int)).toNat = l.length := by omega
  rw [h1, List.take_length, List.drop_length]

/-- C9 (amended): nothing crashes (all the slice/sample arithmetic is total
in the model), and for a non-empty segment list: `maxSegments = 0` in the
smart branch yields the empty output (empty intro and conclusion), but the
summary branch returns the *entire* list (its conclusion `slice(-0)` wraps
around to `slice(0)`); a negative budget such as `maxSegments = -1` makes
even the smart branch return the entire list (negative slice ends count
from the end of the array). -/
theorem c9_degenerate_budget {α : Type} (l : List α) (h : l ≠ []) :
    (processTranscript l "smart".data 0).segments = [] ∧
    (processTranscript l "summary".data 0).segments = l ∧
    (processTranscript l "smart".data (-1)).segments = l := by
  have hlen : 0 < l.length := List.length_pos.mpr h
  have hlenI : (0 : Int) < (l.length : Int) := by exact_mod_cast hlen
  refine ⟨?_, ?_, ?_⟩
  · unfold processTranscript
    rw [if_neg (by omega), if_neg (by decide), if_neg (by decide)]
    have e1 : Rat.floor (rmul (intQ (0 : Int)) (mkRat 2 10)) = 0 := by decide
    have e2 : Rat.floor (rmul (intQ (0 : Int)) (mkRat 3 10)) = 0 := by decide
    simp only [smartSample, e1, e2]
    norm_num
    exact ⟨jsSlice_zero_zero l, jsSliceFrom_len l⟩
  · unfold processTranscript
    rw [if_neg (by omega), if_neg (by decide), if_pos rfl]
    have e1 : Rat.floor (rmul (intQ (0 : Int)) (mkRat 1 10)) = 0 := by decide
    have e2 : Rat.floor (rmul (intQ (0 : Int)) (mkRat 7 10)) = 0 := by decide
    simp only [summarySample, e1, e2]
    norm_num
    rw [jsSlice_zero_zero, jsSliceFrom_zero]
    rfl
  · unfold processTranscript
    rw [if_neg (by omega), if_neg (by decide), if_neg (by decide)]
    have e1 : Rat.floor (rmul (intQ (-1 : Int)) (mkRat 2 10)) = -1 := by decide
    have e2 : Rat.floor (rmul (intQ (-1 : Int)) (mkRat 3 10)) = -1 := by decide
    simp only [smartSample, e1, e2]
    norm_num
    have hintro : jsSlice l 0 (-1) = l.take (l.length - 1) := by
      simp only [jsSlice]
      rw [if_neg (show ¬((0 : Int) < 0) by omega),
        if_pos (show (-1 : Int) < 0 by omega),
        min_eq_left (show (0 : Int) ≤ (l.length : Int) by omega),
        max_eq_left (show (0 : Int) ≤ (l.length : Int) + -1 by omega)]
      have h1 : ((l.length : Int) + -1).toNat = l.length - 1 := by omega
      have h2 : ((0 : Int)).toNat = 0 := by omega
      rw [h1, h2, List.drop_zero]
    have hconcl : jsSliceFrom l ((l.length : Int) - 1) = l.drop (l.length - 1) := by
      simp only [jsSliceFrom, jsSlice]
      rw [if_neg (show ¬((l.length : Int) - 1 < 0) by omega),
        if_neg (show ¬((l.length : Int) < 0) by omega),
        min_eq_left (show (l.length : Int) - 1 ≤ (l.length : Int) by omega), min_self]
      have h1 : ((l.length : Int)).toNat = l.length := by omega
      have h2 : ((l.length : Int) - 1).toNat = l.length - 1 := by omega
      rw [h1, h2, List.take_length]
    rw [hintro, hconcl]
    exact List.take_append_drop _ l

/-- C9 (witness): the degenerate budgets at the concrete one-element list. -/
theorem c9_witness :
    ([(0 : Nat)] ≠ ([] : List Nat)) ∧
    (processTranscript [(0 : Nat)] "smart".data 0).segments = [] ∧
    (processTranscript [(0 : Nat)] "summary".data 0).segments = [0] ∧
    (processTranscript [(0 : Nat)] "smart".data (-1)).segments = [0] :=
  ⟨by decide, (c9_degenerate_budget [0] (by decide)).1,
    (c9_degenerate_budget [0] (by decide)).2.1, (c9_degenerate_budget [0] (by decide)).2.2⟩

/-! ### Claim C10: the segment invariant of the parsers -/

theorem createSegmentIfValid_some {t : Str} {st en : Option Rat} {last : Str} {seg : Segment}
    (h : createSegmentIfValid t st en last = some seg) :
    mkRat 1 10 < seg.duration ∧ seg.text = t := by
  cases st with
  | none => simp [createSegmentIfValid] at h
  | some s =>
    cases en with
    | none => simp [createSegmentIfValid] at h
    | some e =>
      simp only [createSegmentIfValid] at h
      split at h
      · rename_i hcond
        cases h
        exact ⟨hcond.2.2, rfl⟩
      · exact absurd h (by simp)

theorem mem_cleanLines {raw : List Str} {t : Str}
    (h : t ∈ (raw.map cleanSubtitleText).filter isValidSegmentText) :
    isValidSegmentText t = true ∧ ∃ r, t = cleanSubtitleText r := by
  rcases List.mem_filter.mp h with ⟨hm, hv⟩
  rcases List.mem_map.mp hm with ⟨r, _, rfl⟩
  exact ⟨hv, r, rfl⟩

theorem segment_invariant_of_emit {textLines : List Str} {st en : Option Rat} {last : Str}
    {seg : Segment} (hne : textLines ≠ [])
    (hprops : ∀ t ∈ textLines, isValidSegmentText t = true ∧ ∃ r, t = cleanSubtitleText r)
    (h : createSegmentIfValid (joinSpace textLines) st en last = some seg) :
    SegMeetsInvariant seg := by
  obtain ⟨hd, ht⟩ := createSegmentIfValid_some h
  exact ⟨hd, textLines, hne, hprops, ht⟩

theorem parseSrtLinesAux_inv :
    ∀ (fuel : Nat) (lines : List Str) (lastText : Str) (seg : Segment),
      seg ∈ parseSrtLinesAux fuel lines lastText → SegMeetsInvariant seg := by
  intro fuel
  induction fuel with
  | zero =>
    intro lines lastText seg h
    simp [parseSrtLinesAux] at h
  | succ n ih =>
    intro lines lastText seg h
    match lines with
    | [] => simp [parseSrtLinesAux] at h
    | line :: rest =>
      simp only [parseSrtLinesAux] at h
      split at h
      · exact ih _ _ _ h
      · split at h
        · split at h
          · simp at h
          · rename_i tline rest2
            split at h
            · split at h
              · split at h
                · rename_i hne
                  split at h
                  · rename_i seg1 hemit
                    rcases List.mem_cons.mp h with rfl | h2
                    · exact segment_invariant_of_emit hne
                        (fun t ht => mem_cleanLines ht) hemit
                    · exact ih _ _ _ h2
                  · exact ih _ _ _ h
                · exact ih _ _ _ h
              · exact ih _ _ _ h
            · exact ih _ _ _ h
        · exact ih _ _ _ h

theorem parseVttLinesAux_inv :
    ∀ (fuel : Nat) (lines : List Str) (lastText : Str) (seg : Segment),
      seg ∈ parseVttLinesAux fuel lines lastText → SegMeetsInvariant seg := by
  intro fuel
  induction fuel with
  | zero =>
    intro lines lastText seg h
    simp [parseVttLinesAux] at h
  | succ n ih =>
    intro lines lastText seg h
    match lines with
    | [] => simp [parseVttLinesAux] at h
    | line :: rest =>
      simp only [parseVttLinesAux] at h
      split at h
      · exact ih _ _ _ h
      · split at h
        · exact ih _ _ _ h
        · split at h
          · split at h
            · split at h
              · rename_i hne
                split at h
                · rename_i seg1 hemit
                  rcases List.mem_cons.mp h with rfl | h2
                  · exact segment_invariant_of_emit hne
                      (fun t ht => mem_cleanLines ht) hemit
                  · exact ih _ _ _ h2
                · exact ih _ _ _ h
              · exact ih _ _ _ h
            · exact ih _ _ _ h
          · exact ih _ _ _ h

/-- C10: every segment emitted by the SRT parser or the VTT parser has
duration strictly greater than 0.1 and a text space-joined from a non-empty
list of cleaned lines each of length > 2; consequently a cue whose cleaned
lines all have length ≤ 2 produces no segment — parsing an SRT input whose
single cue text is the 2-character reply "ok" yields no segments at all. -/
theorem c10_segment_invariant :
    (∀ (content : Str), ∀ seg ∈ parseSrtToSegments content, SegMeetsInvariant seg) ∧
    (∀ (content : Str), ∀ seg ∈ parseVttToSegments content, SegMeetsInvariant seg) ∧
    parseSrtToSegments srtShortReplyInput = [] := by
  refine ⟨?_, ?_, by decide⟩
  · intro content seg h
    exact parseSrtLinesAux_inv _ _ _ _ h
  · intro content seg h
    exact parseVttLinesAux_inv _ _ _ _ h

/-- C10 (witness): the invariant at the first segment parsed from the
concrete two-cue SRT input. -/
theorem c10_witness :
    SegMeetsInvariant ⟨"こんにちは".data, mkRat 1 1, mkRat 2 1, "0:01".data⟩ :=
  c10_segment_invariant.1 srtTwoCueInput _ (by decide)

/-! ### Claim C2: idempotence of the normalizer -/

/-- C2 (counterexample): `normalize` is not idempotent.  The numeric entity
`&#38;` decodes to `&` producing the *named* entity `&lt;`, which only a
second pass decodes (and nothing re-encodes): one pass gives `"&lt;"`, two
passes give `"<"`. -/
theorem c2_counterexample :
    cleanSubtitleText "&#38;lt;".data = "&lt;".data ∧
    cleanSubtitleText (cleanSubtitleText "&#38;lt;".data) = "<".data ∧
    cleanSubtitleText (cleanSubtitleText "&#38;lt;".data) ≠ cleanSubtitleText "&#38;lt;".data := by
  decide

theorem dropWhile_eq_self_of_all {p : Char → Bool} {l : Str} (h : ∀ c ∈ l, p c = false) :
    l.dropWhile p = l := by
  cases l with
  | nil => rfl
  | cons a as => simp [List.dropWhile_cons, h a (List.mem_cons_self a as)]

theorem jsTrim_id {l : Str} (h : ∀ c ∈ l, jsWhitespace c = false) : jsTrim l = l := by
  unfold jsTrim
  rw [dropWhile_eq_self_of_all h,
    dropWhile_eq_self_of_all (fun c hc => h c (List.mem_reverse.mp hc)), List.reverse_reverse]

theorem replaceAllAux_id (p0 : Char) (ps rep : Str) :
    ∀ (fuel : Nat) (l : Str), (∀ c ∈ l, c ≠ p0) → replaceAllAux (p0 :: ps) rep fuel l = l := by
  intro fuel
  induction fuel with
  | zero => intro l _; cases l <;> rfl
  | succ n ih =>
    intro l h
    cases l with
    | nil => rfl
    | cons c cs =>
      rw [replaceAllAux, if_neg, ih cs (fun x hx => h x (List.mem_cons_of_mem _ hx))]
      intro hcond
      have hpre := hcond.2
      simp [List.isPrefixOf] at hpre
      exact h c (List.mem_cons_self c cs) hpre.1.symm

theorem replaceAll_id {p0 : Char} {ps rep l : Str} (h : ∀ c ∈ l, c ≠ p0) :
    replaceAll (p0 :: ps) rep l = l := replaceAllAux_id p0 ps rep l.length l h

theorem decodeDecEntitiesAux_id :
    ∀ (fuel : Nat) (l : Str), (∀ c ∈ l, c ≠ '&') → decodeDecEntitiesAux fuel l = l := by
  intro fuel
  induction fuel with
  | zero => intro l _; cases l <;> rfl
  | succ n ih =>
    intro l h
    cases l with
    | nil => rfl
    | cons c cs =>
      rw [decodeDecEntitiesAux, if_neg (fun hc => h c (List.mem_cons_self c cs) hc.1),
        ih cs (fun x hx => h x (List.mem_cons_of_mem _ hx))]

theorem decodeHexEntitiesAux_id :
    ∀ (fuel : Nat) (l : Str), (∀ c ∈ l, c ≠ '&') → decodeHexEntitiesAux fuel l = l := by
  intro fuel
  induction fuel with
  | zero => intro l _; cases l <;> rfl
  | succ n ih =>
    intro l h
    cases l with
    | nil => rfl
    | cons c cs =>
      rw [decodeHexEntitiesAux, if_neg (fun hc => h c (List.mem_cons_self c cs) hc.1),
        ih cs (fun x hx => h x (List.mem_cons_of_mem _ hx))]

theorem stripTimingTagsAux_id :
    ∀ (fuel : Nat) (l : Str), (∀ c ∈ l, c ≠ '<') → stripTimingTagsAux fuel l = l := by
  intro fuel
  induction fuel with
  | zero => intro l _; cases l <;> rfl
  | succ n ih =>
    intro l h
    cases l with
    | nil => rfl
    | cons c cs =>
      rw [stripTimingTagsAux, if_neg (fun hc => h c (List.mem_cons_self c cs) hc.1),
        ih cs (fun x hx => h x (List.mem_cons_of_mem _ hx))]

theorem stripHtmlTagsAux_id :
    ∀ (fuel : Nat) (l : Str), (∀ c ∈ l, c ≠ '<') → stripHtmlTagsAux fuel l = l := by
  intro fuel
  induction fuel with
  | zero => intro l _; cases l <;> rfl
  | succ n ih =>
    intro l h
    cases l with
    | nil => rfl
    | cons c cs =>
      rw [stripHtmlTagsAux, if_neg (h c (List.mem_cons_self c cs)),
        ih cs (fun x hx => h x (List.mem_cons_of_mem _ hx))]

theorem removeAllCIAux_id (p0 : Char) (ps : Str) :
    ∀ (fuel : Nat) (l : Str), (∀ c ∈ l, lowerChar c ≠ lowerChar p0) →
      removeAllCIAux (p0 :: ps) fuel l = l := by
  intro fuel
  induction fuel with
  | zero => intro l _; cases l <;> rfl
  | succ n ih =>
    intro l h
    cases l with
    | nil => rfl
    | cons c cs =>
      rw [removeAllCIAux, if_neg, ih cs (fun x hx => h x (List.mem_cons_of_mem _ hx))]
      intro hcond
      have hpre := hcond.2
      simp [ciPrefixOf, List.isPrefixOf] at hpre
      exact h c (List.mem_cons_self c cs) hpre.1.symm

theorem removeAllCI_id {p0 : Char} {ps l : Str} (h : ∀ c ∈ l, lowerChar c ≠ lowerChar p0) :
    removeAllCI (p0 :: ps) l = l := removeAllCIAux_id p0 ps l.length l h

theorem foldl_removeAllCI_id (markers : List Str) (l : Str)
    (h : ∀ pat ∈ markers, removeAllCI pat l = l) :
    markers.foldl (fun acc p => removeAllCI p acc) l = l := by
  induction markers with
  | nil => rfl
  | cons m ms ih =>
    rw [List.foldl_cons, h m (List.mem_cons_self m ms)]
    exact ih fun p hp => h p (List.mem_cons_of_mem _ hp)

theorem stripSpeakerArrow_id {l : Str} (h : ∀ c ∈ l, c ≠ '>') : stripSpeakerArrow l = l := by
  unfold stripSpeakerArrow
  split
  · exact absurd rfl (h '>' (List.mem_cons_self _ _))
  · rfl

theorem collapseWsAux_id :
    ∀ (fuel : Nat) (l : Str), (∀ c ∈ l, jsWhitespace c = false) → collapseWsAux fuel l = l := by
  intro fuel
  induction fuel with
  | zero => intro l _; cases l <;> rfl
  | succ n ih =>
    intro l h
    cases l with
    | nil => rfl
    | cons c cs =>
      rw [collapseWsAux, if_neg, ih cs (fun x hx => h x (List.mem_cons_of_mem _ hx))]
      simp [h c (List.mem_cons_self c cs)]

theorem normalizeWs_id {l : Str} (h : ∀ c ∈ l, jsWhitespace c = false) : normalizeWs l = l := by
  unfold normalizeWs
  rw [collapseWsAux_id l.length l h, jsTrim_id h]

theorem collapseRunsAux_congr :
    ∀ (f1 f2 : Nat) (l : Str), l.length ≤ f1 → l.length ≤ f2 →
      collapseRunsAux f1 l = collapseRunsAux f2 l := by
  intro f1
  induction f1 with
  | zero =>
    intro f2 l h1 _
    have : l = [] := List.eq_nil_of_length_eq_zero (Nat.le_zero.mp h1)
    subst this
    cases f2 <;> rfl
  | succ n ih =>
    intro f2 l h1 h2
    cases l with
    | nil => cases f2 <;> rfl
    | cons c cs =>
      cases f2 with
      | zero => simp at h2
      | succ m =>
        rw [collapseRunsAux, collapseRunsAux]
        congr 1
        exact ih m (cs.dropWhile fun x => x = c)
          (le_trans ((List.dropWhile_sublist _).length_le) (Nat.lt_succ_iff.mp h1))
          (le_trans ((List.dropWhile_sublist _).length_le) (Nat.lt_succ_iff.mp h2))

theorem collapseRuns_cons (c : Char) (cs : Str) :
    collapseRuns (c :: cs) =
      (if dotMatches c ∧ (cs.takeWhile (fun x => x = c)).length + 1 ≥ 4 then [c]
       else c :: cs.takeWhile (fun x => x = c)) ++ collapseRuns (cs.dropWhile (fun x => x = c)) := by
  show collapseRunsAux (cs.length + 1) (c :: cs) = _
  rw [collapseRunsAux]
  congr 1
  exact collapseRunsAux_congr cs.length _ _ ((List.dropWhile_sublist _).length_le) le_rfl

theorem collapseRuns_head? (l : Str) : (collapseRuns l).head? = l.head? := by
  cases l with
  | nil => rfl
  | cons c cs =>
    rw [collapseRuns_cons]
    split <;> rfl

theorem collapseRuns_subset : ∀ (l : Str), ∀ c ∈ collapseRuns l, c ∈ l := by
  suffices H : ∀ (n : Nat) (l : Str), l.length ≤ n → ∀ c ∈ collapseRuns l, c ∈ l from
    fun l => H l.length l le_rfl
  intro n
  induction n with
  | zero =>
    intro l hl
    have : l = [] := List.eq_nil_of_length_eq_zero (Nat.le_zero.mp hl)
    subst this
    intro c hc
    exact absurd hc (by simp [collapseRuns, collapseRunsAux])
  | succ n ih =>
    intro l hl c hc
    cases l with
    | nil => exact absurd hc (by simp [collapseRuns, collapseRunsAux])
    | cons a as =>
      rw [collapseRuns_cons] at hc
      rcases List.mem_append.mp hc with hB | hrec
      · split at hB
        · rw [List.mem_singleton.mp hB]
          exact List.mem_cons_self _ _
        · rcases List.mem_cons.mp hB with rfl | hrun
          · exact List.mem_cons_self _ _
          · exact List.mem_cons_of_mem _ ((List.takeWhile_sublist _).subset hrun)
      · have := ih (as.dropWhile fun x => x = a)
          (le_trans ((List.dropWhile_sublist _).length_le) (Nat.lt_succ_iff.mp hl)) c hrec
        exact List.mem_cons_of_mem _ ((List.dropWhile_sublist _).subset this)

theorem takeWhile_all_append {p : Char → Bool} {xs ys : Str} (hx : ∀ x ∈ xs, p x = true)
    (hy : ∀ y, ys.head? = some y → p y = false) :
    (xs ++ ys).takeWhile p = xs ∧ (xs ++ ys).dropWhile p = ys := by
  induction xs with
  | nil =>
    simp only [List.nil_append]
    cases ys with
    | nil => exact ⟨rfl, rfl⟩
    | cons y ys' =>
      have := hy y rfl
      constructor
      · simp [List.takeWhile_cons, this]
      · simp [List.dropWhile_cons, this]
  | cons x xs' ih =>
    have hpx := hx x (List.mem_cons_self x xs')
    have hrest := ih fun a ha => hx a (List.mem_cons_of_mem _ ha)
    constructor
    · simp [List.takeWhile_cons, hpx, hrest.1]
    · simp [List.dropWhile_cons, hpx, hrest.2]

theorem collapseRuns_idem : ∀ (l : Str), collapseRuns (collapseRuns l) = collapseRuns l := by
  suffices H : ∀ (n : Nat) (l : Str), l.length ≤ n →
      collapseRuns (collapseRuns l) = collapseRuns l from fun l => H l.length l le_rfl
  intro n
  induction n with
  | zero =>
    intro l hl
    have : l = [] := List.eq_nil_of_length_eq_zero (Nat.le_zero.mp hl)
    subst this
    rfl
  | succ n ih =>
    intro l hl
    cases l with
    | nil => rfl
    | cons c cs =>
      have hrec : collapseRuns (collapseRuns (cs.dropWhile fun x => x = c)) =
          collapseRuns (cs.dropWhile fun x => x = c) :=
        ih _ (le_trans ((List.dropWhile_sublist _).length_le) (Nat.lt_succ_iff.mp hl))
      have hheadrest : ∀ y, (collapseRuns (cs.dropWhile fun x => x = c)).head? = some y →
          (decide (y = c)) = false := by
        intro y hy
        rw [collapseRuns_head?] at hy
        have := List.head?_dropWhile_not (fun x => decide (x = c)) cs
        rw [hy] at this
        simpa using this
      rw [collapseRuns_cons]
      split
      · rename_i hcond
        rw [List.singleton_append]
        have hsplit := @takeWhile_all_append (fun x => decide (x = c)) []
          (collapseRuns (cs.dropWhile fun x => x = c)) (by simp) hheadrest
        rw [collapseRuns_cons]
        simp only [List.nil_append] at hsplit
        rw [hsplit.1, hsplit.2, hrec]
        rw [if_neg (by simp)]
        rfl
      · rename_i hcond
        rw [List.cons_append]
        have hrunall : ∀ x ∈ cs.takeWhile (fun x => x = c), (fun x => decide (x = c)) x = true := by
          intro x hx
          simpa using List.mem_takeWhile_imp hx
        have hsplit := @takeWhile_all_append (fun x => decide (x = c))
          (cs.takeWhile fun x => x = c)
          (collapseRuns (cs.dropWhile fun x => x = c)) hrunall hheadrest
        rw [collapseRuns_cons, hsplit.1, hsplit.2, hrec, if_neg hcond]
        rfl

theorem decodeDecEntities_id {l : Str} (h : ∀ c ∈ l, c ≠ '&') : decodeDecEntities l = l :=
  decodeDecEntitiesAux_id l.length l h

theorem decodeHexEntities_id {l : Str} (h : ∀ c ∈ l, c ≠ '&') : decodeHexEntities l = l :=
  decodeHexEntitiesAux_id l.length l h

theorem stripTimingTags_id {l : Str} (h : ∀ c ∈ l, c ≠ '<') : stripTimingTags l = l :=
  stripTimingTagsAux_id l.length l h

theorem stripHtmlTags_id {l : Str} (h : ∀ c ∈ l, c ≠ '<') : stripHtmlTags l = l :=
  stripHtmlTagsAux_id l.length l h

theorem convertHalfWidth_id {l : Str}
    (h : ∀ c ∈ l, ¬(0xFF71 ≤ c.toNat ∧ c.toNat ≤ 0xFF9F)) :
    convertHalfWidthToFullWidth l = l := by
  unfold convertHalfWidthToFullWidth
  induction l with
  | nil => rfl
  | cons a as ih =>
    rw [List.map_cons, if_neg (h a (List.mem_cons_self a as)),
      ih fun c hc => h c (List.mem_cons_of_mem _ hc)]

theorem cleanSubtitleText_alpha {s : Str}
    (h : ∀ c ∈ s, c ∈ "abcdefghijklmnopqrstuvwxyz".data) :
    cleanSubtitleText s = collapseRuns s := by
  have fWs : ∀ c ∈ "abcdefghijklmnopqrstuvwxyz".data, jsWhitespace c = false := by decide
  have fAmp : ∀ c ∈ "abcdefghijklmnopqrstuvwxyz".data, c ≠ '&' := by decide
  have fLt : ∀ c ∈ "abcdefghijklmnopqrstuvwxyz".data, c ≠ '<' := by decide
  have fGtc : ∀ c ∈ "abcdefghijklmnopqrstuvwxyz".data, c ≠ '>' := by decide
  have fNote : ∀ c ∈ "abcdefghijklmnopqrstuvwxyz".data, c ≠ '♪' := by decide
  have fBr : ∀ c ∈ "abcdefghijklmnopqrstuvwxyz".data,
      lowerChar c ≠ lowerChar '[' ∧ lowerChar c ≠ lowerChar '(' := by decide
  have fKat : ∀ c ∈ "abcdefghijklmnopqrstuvwxyz".data,
      ¬(0xFF71 ≤ c.toNat ∧ c.toNat ≤ 0xFF9F) := by decide
  have fPun : ∀ c ∈ "abcdefghijklmnopqrstuvwxyz".data, punctOnlyClass c = false := by decide
  have hWs : ∀ c ∈ s, jsWhitespace c = false := fun c hc => fWs c (h c hc)
  have hAmp : ∀ c ∈ s, c ≠ '&' := fun c hc => fAmp c (h c hc)
  have hLt : ∀ c ∈ s, c ≠ '<' := fun c hc => fLt c (h c hc)
  have hGtc : ∀ c ∈ s, c ≠ '>' := fun c hc => fGtc c (h c hc)
  have hsub : ∀ c ∈ collapseRuns s, c ∈ "abcdefghijklmnopqrstuvwxyz".data :=
    fun c hc => h c (collapseRuns_subset s c hc)
  have hmus : removeMusicMarkers s = s := by
    unfold removeMusicMarkers
    have hfil : (s.filter fun c => c ≠ '♪') = s :=
      List.filter_eq_self.mpr fun a ha => by
        simpa using fNote a (h a ha)
    rw [hfil]
    refine foldl_removeAllCI_id _ _ fun pat hp => ?_
    have hhead : ∀ p ∈ musicMarkers, p.head? = some '[' ∨ p.head? = some '(' := by decide
    rcases hhead pat hp with hb | hb
    · cases pat with
      | nil => exact absurd hb (by simp)
      | cons p0 ps =>
        have hp0 : p0 = '[' := by simpa using hb
        subst hp0
        exact removeAllCI_id fun c hc => (fBr c (h c hc)).1
    · cases pat with
      | nil => exact absurd hb (by simp)
      | cons p0 ps =>
        have hp0 : p0 = '(' := by simpa using hb
        subst hp0
        exact removeAllCI_id fun c hc => (fBr c (h c hc)).2
  have hpo : isPunctOnly (collapseRuns s) = false := by
    cases hcr : collapseRuns s with
    | nil => rfl
    | cons a as =>
      have ha : punctOnlyClass a = false :=
        fPun a (hsub a (hcr ▸ List.mem_cons_self a as))
      simp [isPunctOnly, List.all_cons, ha]
  simp only [cleanSubtitleText]
  rw [jsTrim_id hWs]
  rw [replaceAll_id hAmp, replaceAll_id hAmp, replaceAll_id hAmp, replaceAll_id hAmp,
    replaceAll_id hAmp, replaceAll_id hAmp]
  rw [decodeDecEntities_id hAmp, decodeHexEntities_id hAmp, stripTimingTags_id hLt,
    stripHtmlTags_id hLt, hmus, stripSpeakerArrow_id hGtc,
    convertHalfWidth_id fun c hc => fKat c (hsub c hc)]
  rw [if_neg (by rw [hpo]; exact Bool.false_ne_true)]
  exact normalizeWs_id fun c hc => fWs c (hsub c hc)

/-- C2 (amended): the normalizer is not idempotent in general (see the
counterexample), but it is idempotent on inputs where only the
character-run collapsing acts — for example on every string of lower-case
ASCII letters. -/
theorem c2_normalize_idempotent_on_letters (s : Str)
    (h : ∀ c ∈ s, c ∈ "abcdefghijklmnopqrstuvwxyz".data) :
    cleanSubtitleText (cleanSubtitleText s) = cleanSubtitleText s := by
  rw [cleanSubtitleText_alpha h,
    cleanSubtitleText_alpha fun c hc => h c (collapseRuns_subset s c hc)]
  exact collapseRuns_idem s

/-- C2 (witness): idempotence at the concrete letter string "aaaaabcc"
(whose run of five a's the normalizer really collapses). -/
theorem c2_witness :
    (∀ c ∈ "aaaaabcc".data, c ∈ "abcdefghijklmnopqrstuvwxyz".data) ∧
    cleanSubtitleText (cleanSubtitleText "aaaaabcc".data) = cleanSubtitleText "aaaaabcc".data :=
  ⟨by decide, c2_normalize_idempotent_on_letters "aaaaabcc".data (by decide)⟩

/-! ### Claim C5: the sampling budget -/

/-- C5 (counterexample): in summary mode with `maxSegments = 1` on a
two-element list, `summaryConclusion = ⌊0.7⌋ = 0` makes the conclusion
`slice(-0)` the whole list and the middle loop re-adds element 0: the
output is `[0, 0, 1]` — longer than the budget and not order-preserving
(element 0 appears twice). -/
theorem c5_counterexample :
    (processTranscript [0, 1] "summary".data 1).segments = [0, 0, 1] ∧
    ¬(((processTranscript [0, 1] "summary".data 1).segments.length : Int) ≤ 1) ∧
    ¬ (processTranscript [0, 1] "summary".data 1).segments.Sublist [0, 1] := by decide

theorem pairwise_sub_one {is : List Nat} (hp : is.Pairwise (· < ·))
    (hpos : ∀ j ∈ is, 0 < j) : (is.map fun j => j - 1).Pairwise (· < ·) := by
  rw [List.pairwise_map]
  induction is with
  | nil => exact List.Pairwise.nil
  | cons j js ih =>
    rcases List.pairwise_cons.mp hp with ⟨hlt, hp'⟩
    refine List.pairwise_cons.mpr ⟨?_, ih hp' fun x hx => hpos x (List.mem_cons_of_mem _ hx)⟩
    intro b hb
    have h1 := hlt b hb
    have h2 := hpos j (List.mem_cons_self _ _)
    omega

theorem filterMap_get?_sublist {α : Type} :
    ∀ (l : List α) (ns : List Nat), ns.Pairwise (· < ·) →
      (ns.filterMap fun i => l.get? i).Sublist l := by
  intro l
  induction l with
  | nil =>
    intro ns _
    have he : (ns.filterMap fun i => List.get? ([] : List α) i) = [] :=
      List.filterMap_eq_nil_iff.mpr fun a _ => rfl
    rw [he]
  | cons x xs ih =>
    intro ns hp
    have hshift : ∀ (js : List Nat), (∀ j ∈ js, 0 < j) →
        (js.filterMap fun j => (x :: xs).get? j) =
          ((js.map fun j => j - 1).filterMap fun j => xs.get? j) := by
      intro js hpos
      rw [List.filterMap_map]
      apply List.filterMap_congr
      intro j hj
      have := hpos j hj
      match j, this with
      | j+1, _ => simp [Function.comp]
    cases ns with
    | nil => exact List.nil_sublist _
    | cons i is =>
      rcases List.pairwise_cons.mp hp with ⟨hlt, hp'⟩
      cases i with
      | zero =>
        rw [List.filterMap_cons_some (rfl : (x :: xs).get? 0 = some x)]
        rw [hshift is fun j hj => hlt j hj]
        exact (ih _ (pairwise_sub_one hp' fun j hj => hlt j hj)).cons₂ x
      | succ k =>
        have hpos : ∀ j ∈ (k+1) :: is, 0 < j := by
          intro j hj
          rcases List.mem_cons.mp hj with rfl | hj2
          · omega
          · have := hlt j hj2
            omega
        rw [hshift _ hpos]
        exact List.Sublist.cons x (ih _ (pairwise_sub_one hp hpos))

theorem filterMap_get?_range {α : Type} (l : List α) :
    ∀ n, ((List.range n).filterMap fun j => l.get? j) = l.take n := by
  intro n
  induction n with
  | zero => rfl
  | succ m ih =>
    rw [List.range_succ, List.filterMap_append, ih, List.take_succ]
    congr 1
    cases h : l.get? m with
    | none =>
      have h2 : l[m]? = none := by
        rw [← List.get?_eq_getElem?]
        exact h
      simp [List.filterMap_cons, h, h2]
    | some a =>
      have h2 : l[m]? = some a := by
        rw [← List.get?_eq_getElem?]
        exact h
      simp [List.filterMap_cons, h, h2]

theorem filterMap_get?_range' {α : Type} (l : List α) :
    ∀ (k m : Nat), ((List.range' m k).filterMap fun j => l.get? j) = (l.drop m).take k := by
  intro k
  induction k with
  | zero => intro m; rfl
  | succ n ih =>
    intro m
    rw [List.range'_succ]
    cases h : l.get? m with
    | none =>
      rw [List.filterMap_cons_none h, ih (m+1)]
      have hlen := List.get?_eq_none.mp h
      rw [List.drop_eq_nil_of_le hlen, List.drop_eq_nil_of_le (by omega)]
      simp
    | some a =>
      rw [List.filterMap_cons_some h, ih (m+1)]
      have hlt : m < l.length := by
        by_contra hge
        rw [List.get?_eq_none.mpr (Nat.le_of_not_lt hge)] at h
        cases h
      have hd : l.drop m = a :: l.drop (m+1) := by
        rw [List.drop_eq_getElem_cons hlt]
        have h2 : l[m]? = some a := by
          rw [← List.get?_eq_getElem?]
          exact h
        rw [List.getElem?_eq_getElem hlt] at h2
        rw [Option.some_inj.mp h2]
      rw [hd, List.take_succ_cons]

theorem filterMap_if_get? {α : Type} (l : List α) (P : Nat → Prop) [DecidablePred P]
    (g : Nat → Nat) (ns : List Nat) :
    (ns.filterMap fun i => if P i then l.get? (g i) else none) =
      ((ns.filterMap fun i => if P i then some (g i) else none).filterMap fun j =>
        l.get? j) := by
  induction ns with
  | nil => rfl
  | cons i is ih =>
    by_cases hP : P i
    · cases h : l.get? (g i) with
      | none =>
        rw [@List.filterMap_cons_none ℕ α (fun j => if P j then l.get? (g j) else none) i is
            (by show (if P i then l.get? (g i) else none) = none
                rw [if_pos hP]; exact h),
          @List.filterMap_cons_some ℕ ℕ (fun j => if P j then some (g j) else none) i is
            (g i) (if_pos hP),
          List.filterMap_cons_none h, ih]
      | some a =>
        rw [@List.filterMap_cons_some ℕ α (fun j => if P j then l.get? (g j) else none) i is a
            (by show (if P i then l.get? (g i) else none) = some a
                rw [if_pos hP]; exact h),
          @List.filterMap_cons_some ℕ ℕ (fun j => if P j then some (g j) else none) i is
            (g i) (if_pos hP),
          List.filterMap_cons_some h, ih]
    · rw [@List.filterMap_cons_none ℕ α (fun j => if P j then l.get? (g j) else none) i is
          (if_neg hP),
        @List.filterMap_cons_none ℕ ℕ (fun j => if P j then some (g j) else none) i is
          (if_neg hP), ih]

theorem head?_take_pos {α : Type} (l : List α) (n : Nat) (hn : 0 < n) :
    (l.take n).head? = l.head? := by
  cases l with
  | nil => simp
  | cons x xs =>
    cases n with
    | zero => omega
    | succ m => simp

theorem sample_sublist_of_indices {α : Type} (l : List α) (iCn cSn : Nat) (mid : List α)
    (midIdx : List Nat) (hic : iCn ≤ cSn) (hcs : cSn ≤ l.length)
    (hmid : mid = midIdx.filterMap fun j => l.get? j)
    (hpw : midIdx.Pairwise (· < ·))
    (hbnd : ∀ j ∈ midIdx, iCn ≤ j ∧ j < cSn) :
    (l.take iCn ++ mid ++ l.drop cSn).Sublist l := by
  have hall : (List.range iCn ++ midIdx ++ List.range' cSn (l.length - cSn)).Pairwise
      (· < ·) := by
    rw [List.pairwise_append]
    refine ⟨?_, ?_, ?_⟩
    · rw [List.pairwise_append]
      refine ⟨List.pairwise_lt_range iCn, hpw, ?_⟩
      intro a ha b hb
      have := (hbnd b hb).1
      have := List.mem_range.mp ha
      omega
    · exact List.pairwise_lt_range' cSn (l.length - cSn)
    · intro a ha b hb
      have hb2 := (List.mem_range'_1.mp hb).1
      rcases List.mem_append.mp ha with ha1 | ha2
      · have := List.mem_range.mp ha1
        omega
      · have := (hbnd a ha2).2
        omega
  have heq : l.take iCn ++ mid ++ l.drop cSn =
      ((List.range iCn ++ midIdx ++ List.range' cSn (l.length - cSn)).filterMap fun j =>
        l.get? j) := by
    rw [List.filterMap_append, List.filterMap_append]
    rw [filterMap_get?_range, filterMap_get?_range', hmid]
    rw [List.take_of_length_le (show (l.drop cSn).length ≤ l.length - cSn by
      rw [List.length_drop])]
  rw [heq]
  exact filterMap_get?_sublist l _ hall

theorem jsSlice_zero_toNat {α : Type} (l : List α) (e : Int) (he : 0 ≤ e) :
    jsSlice l 0 e = l.take e.toNat := by
  simp only [jsSlice]
  rw [if_neg (show ¬((0 : Int) < 0) by omega), if_neg (show ¬(e < 0) by omega),
    min_eq_left (show (0 : Int) ≤ (l.length : Int) by omega),
    show ((0 : Int)).toNat = 0 from rfl, List.drop_zero]
  by_cases hle : e ≤ (l.length : Int)
  · rw [min_eq_left hle]
  · rw [min_eq_right (le_of_not_le hle)]
    have h1 : ((l.length : Int)).toNat = l.length := by omega
    rw [h1, List.take_length, List.take_of_length_le (by omega)]

theorem jsSliceFrom_toNat {α : Type} (l : List α) (s : Int) (hs : 0 ≤ s) :
    jsSliceFrom l s = l.drop s.toNat := by
  simp only [jsSliceFrom, jsSlice]
  rw [if_neg (show ¬(s < 0) by omega), if_neg (show ¬((l.length : Int) < 0) by omega),
    min_self]
  have h1 : ((l.length : Int)).toNat = l.length := by omega
  rw [h1, List.take_length]
  by_cases hle : s ≤ (l.length : Int)
  · rw [min_eq_left hle]
  · rw [min_eq_right (le_of_not_le hle), h1, List.drop_length,
      List.drop_eq_nil_of_le (by omega)]

theorem jsSliceFrom_neg_toNat {α : Type} (l : List α) (s : Int) (hs : s < 0)
    (hlen : 0 ≤ (l.length : Int) + s) :
    jsSliceFrom l s = l.drop ((l.length : Int) + s).toNat := by
  simp only [jsSliceFrom, jsSlice]
  rw [if_pos hs, if_neg (show ¬((l.length : Int) < 0) by omega), min_self,
    max_eq_left hlen]
  have h1 : ((l.length : Int)).toNat = l.length := by omega
  rw [h1, List.take_length]

theorem sample_props_of_shape {α : Type} (l : List α) (seg : List α) (B : Int)
    (iCn cSn : Nat) (midIdx : List Nat)
    (hseg : seg = l.take iCn ++ (midIdx.filterMap fun j => l.get? j) ++ l.drop cSn)
    (hic : iCn ≤ cSn) (hcs : cSn ≤ l.length)
    (hpw : midIdx.Pairwise (· < ·)) (hbnd : ∀ j ∈ midIdx, iCn ≤ j ∧ j < cSn)
    (hlen : (iCn : Int) + midIdx.length + ((l.length : Int) - cSn) ≤ B) :
    ((seg.length : Int) ≤ B) ∧ seg.Sublist l := by
  constructor
  · rw [hseg]
    have h1 : (l.take iCn).length ≤ iCn := by
      rw [List.length_take]
      omega
    have h2 : (midIdx.filterMap fun j => l.get? j).length ≤ midIdx.length :=
      List.length_filterMap_le _ _
    have h3 : (l.drop cSn).length = l.length - cSn := List.length_drop _ _
    simp only [List.length_append]
    omega
  · rw [hseg]
    exact sample_sublist_of_indices l iCn cSn _ midIdx hic hcs rfl hpw hbnd

theorem head?_of_shape {α : Type} (l : List α) (seg : List α) (iCn cSn : Nat)
    (midIdx : List Nat)
    (hseg : seg = l.take iCn ++ (midIdx.filterMap fun j => l.get? j) ++ l.drop cSn)
    (hpos : 0 < iCn) (hne : l ≠ []) : seg.head? = l.head? := by
  rw [hseg]
  cases l with
  | nil => exact absurd rfl hne
  | cons x xs =>
    have ht := head?_take_pos (x :: xs) iCn hpos
    simp only [List.head?_append, ht]
    rfl

theorem floor_idx_eq (X Y Z : Int) (i : Nat) :
    Rat.floor (radd (intQ X) (rmul (natQ i) (rdiv (intQ Y) (intQ Z)))) =
      ⌊(X : ℚ) + (i : ℚ) * ((Y : ℚ) / (Z : ℚ))⌋ := by
  rw [rfloor_eq, radd_eq, rmul_eq, rdiv_eq, intQ_eq, intQ_eq, intQ_eq, natQ_eq]

theorem middle_shape {α : Type} (l : List α) (lo cS : Int) (n : Nat) (f : Nat → Int)
    (hmono : ∀ i j : Nat, i < j → f i < f j) (hlo : ∀ i : Nat, lo ≤ f i) :
    ∃ midIdx : List Nat,
      ((List.range n).filterMap fun i =>
          if f i < cS ∧ 0 ≤ f i then l.get? (f i).toNat else none) =
        (midIdx.filterMap fun j => l.get? j) ∧
      midIdx.Pairwise (· < ·) ∧ midIdx.length ≤ n ∧
      (∀ j ∈ midIdx, lo ≤ (j : Int) ∧ (j : Int) < cS) := by
  refine ⟨(List.range n).filterMap fun i =>
      if f i < cS ∧ 0 ≤ f i then some (f i).toNat else none, ?_, ?_, ?_, ?_⟩
  · exact filterMap_if_get? l (fun i => f i < cS ∧ 0 ≤ f i) (fun i => (f i).toNat)
      (List.range n)
  · refine List.pairwise_filterMap.mpr ?_
    refine (List.pairwise_lt_range n).imp ?_
    intro a b hab x hx y hy
    rw [Option.mem_def] at hx hy
    by_cases hPa : f a < cS ∧ 0 ≤ f a
    · by_cases hPb : f b < cS ∧ 0 ≤ f b
      · rw [if_pos hPa] at hx
        rw [if_pos hPb] at hy
        injection hx with hx1
        injection hy with hy1
        subst hx1
        subst hy1
        have h1 := hmono a b hab
        have h2 := hPa.2
        omega
      · rw [if_neg hPb] at hy
        exact Option.noConfusion hy
    · rw [if_neg hPa] at hx
      exact Option.noConfusion hx
  · exact le_trans (List.length_filterMap_le _ _) (le_of_eq (List.length_range n))
  · intro j hj
    rw [List.mem_filterMap] at hj
    obtain ⟨i, hi, hif⟩ := hj
    by_cases hP : f i < cS ∧ 0 ≤ f i
    · rw [if_pos hP] at hif
      injection hif with hif1
      subst hif1
      have h1 := hlo i
      have h2 := hP.1
      have h3 := hP.2
      omega
    · rw [if_neg hP] at hif
      exact Option.noConfusion hif

theorem floor_affine_strict_mono (X : Int) (s : ℚ) (hs : 1 < s) (i j : Nat) (hij : i < j) :
    ⌊(X : ℚ) + (i : ℚ) * s⌋ < ⌊(X : ℚ) + (j : ℚ) * s⌋ := by
  have hij1 : (i : ℚ) + 1 ≤ (j : ℚ) := by exact_mod_cast hij
  have hs0 : (0 : ℚ) ≤ s := le_of_lt (lt_trans zero_lt_one hs)
  have hmul : ((i : ℚ) + 1) * s ≤ (j : ℚ) * s := mul_le_mul_of_nonneg_right hij1 hs0
  have h1 : (X : ℚ) + (i : ℚ) * s + 1 ≤ (X : ℚ) + (j : ℚ) * s := by nlinarith
  have h2 : ⌊(X : ℚ) + (i : ℚ) * s + 1⌋ ≤ ⌊(X : ℚ) + (j : ℚ) * s⌋ := Int.floor_le_floor h1
  rw [Int.floor_add_one] at h2
  omega

theorem floor_affine_lower (X : Int) (s : ℚ) (hs : 0 ≤ s) (i : Nat) :
    X ≤ ⌊(X : ℚ) + (i : ℚ) * s⌋ := by
  have h1 : (X : ℚ) ≤ (X : ℚ) + (i : ℚ) * s := by
    have h0 : (0 : ℚ) ≤ (i : ℚ) * s := mul_nonneg (by positivity) hs
    linarith
  have h2 := Int.floor_le_floor h1
  rwa [Int.floor_intCast] at h2

theorem smart_shape_core {α : Type} (l : List α) (B iC mC : Int)
    (hiC0 : 0 ≤ iC) (hmC0 : 0 ≤ mC) (hsum : iC + mC < B) (hlen : B < (l.length : Int)) :
    ∃ (iCn cSn : Nat) (midIdx : List Nat),
      (jsSlice l 0 iC ++
          (if mC > 0 ∧ (l.length : Int) - (B - iC - mC) > iC then
            (List.range mC.toNat).filterMap fun i =>
              let idx := Rat.floor (radd (intQ iC) (rmul (natQ i)
                (rdiv (intQ ((l.length : Int) - (B - iC - mC) - iC)) (intQ mC))))
              if idx < (l.length : Int) - (B - iC - mC) ∧ 0 ≤ idx then l.get? idx.toNat
              else none
          else []) ++
          jsSliceFrom l ((l.length : Int) - (B - iC - mC))) =
        l.take iCn ++ (midIdx.filterMap fun j => l.get? j) ++ l.drop cSn ∧
      iCn ≤ cSn ∧ cSn ≤ l.length ∧ midIdx.Pairwise (· < ·) ∧
      (∀ j ∈ midIdx, iCn ≤ j ∧ j < cSn) ∧
      ((iCn : Int) + (midIdx.length : Int) + ((l.length : Int) - (cSn : Int)) ≤ B) ∧
      (0 < iC → 0 < iCn) := by
  have hcs0 : 0 ≤ (l.length : Int) - (B - iC - mC) := by omega
  have hslice1 : jsSlice l 0 iC = l.take iC.toNat := jsSlice_zero_toNat l iC hiC0
  have hslice2 : jsSliceFrom l ((l.length : Int) - (B - iC - mC)) =
      l.drop ((l.length : Int) - (B - iC - mC)).toNat := jsSliceFrom_toNat l _ hcs0
  by_cases hg : mC > 0 ∧ (l.length : Int) - (B - iC - mC) > iC
  · have hZq : (0 : ℚ) < ((mC : Int) : ℚ) := by exact_mod_cast hg.1
    have hYgtZ : ((mC : Int) : ℚ) <
        (((l.length : Int) - (B - iC - mC) - iC : Int) : ℚ) := by
      have h1 : mC < (l.length : Int) - (B - iC - mC) - iC := by omega
      exact_mod_cast h1
    have hstep1 : (1 : ℚ) <
        ((((l.length : Int) - (B - iC - mC) - iC : Int) : ℚ) / ((mC : Int) : ℚ)) :=
      (one_lt_div hZq).mpr hYgtZ
    obtain ⟨midIdx, hmid, hpw, hmlen, hbnd⟩ :=
      middle_shape l iC ((l.length : Int) - (B - iC - mC)) mC.toNat
        (fun i => ⌊(iC : ℚ) + (i : ℚ) *
          ((((l.length : Int) - (B - iC - mC) - iC : Int) : ℚ) / ((mC : Int) : ℚ))⌋)
        (fun i j hij => floor_affine_strict_mono iC _ hstep1 i j hij)
        (fun i => floor_affine_lower iC _ (le_of_lt (lt_trans zero_lt_one hstep1)) i)
    refine ⟨iC.toNat, ((l.length : Int) - (B - iC - mC)).toNat, midIdx,
      ?_, by omega, by omega, hpw, ?_, ?_, ?_⟩
    · rw [hslice1, hslice2, if_pos hg]
      simp only [floor_idx_eq]
      exact congrArg (fun t =>
        l.take iC.toNat ++ t ++ l.drop ((l.length : Int) - (B - iC - mC)).toNat) hmid
    · intro j hj
      have hb := hbnd j hj
      omega
    · have h1 := hmlen
      omega
    · intro h
      omega
  · refine ⟨iC.toNat, ((l.length : Int) - (B - iC - mC)).toNat, [],
      ?_, by omega, by omega, List.Pairwise.nil, ?_, ?_, ?_⟩
    · rw [hslice1, hslice2, if_neg hg]
      rfl
    · intro j hj
      exact absurd hj (List.not_mem_nil j)
    · have h1 : (([] : List Nat).length : Int) = 0 := rfl
      omega
    · intro h
      omega

theorem smartSample_eq {α : Type} (l : List α) (B : Int) (hB : 1 ≤ B)
    (hlen : B < (l.length : Int)) :
    ∃ (iCn cSn : Nat) (midIdx : List Nat),
      (smartSample l B).segments =
        l.take iCn ++ (midIdx.filterMap fun j => l.get? j) ++ l.drop cSn ∧
      iCn ≤ cSn ∧ cSn ≤ l.length ∧ midIdx.Pairwise (· < ·) ∧
      (∀ j ∈ midIdx, iCn ≤ j ∧ j < cSn) ∧
      ((iCn : Int) + (midIdx.length : Int) + ((l.length : Int) - (cSn : Int)) ≤ B) ∧
      (0 < Rat.floor (rmul (intQ B) (mkRat 2 10)) → 0 < iCn) := by
  have hBq : (1 : ℚ) ≤ (B : ℚ) := by exact_mod_cast hB
  have hiCeq : Rat.floor (rmul (intQ B) (mkRat 2 10)) = ⌊(B : ℚ) * (2 / 10 : ℚ)⌋ := by
    rw [rfloor_eq, rmul_eq, intQ_eq, Rat.mkRat_eq_div]
    norm_num
  have hmCeq : Rat.floor (rmul (intQ B) (mkRat 3 10)) = ⌊(B : ℚ) * (3 / 10 : ℚ)⌋ := by
    rw [rfloor_eq, rmul_eq, intQ_eq, Rat.mkRat_eq_div]
    norm_num
  have hiC0 : 0 ≤ ⌊(B : ℚ) * (2 / 10 : ℚ)⌋ := Int.floor_nonneg.mpr (by nlinarith)
  have hmC0 : 0 ≤ ⌊(B : ℚ) * (3 / 10 : ℚ)⌋ := Int.floor_nonneg.mpr (by nlinarith)
  have hsum : ⌊(B : ℚ) * (2 / 10 : ℚ)⌋ + ⌊(B : ℚ) * (3 / 10 : ℚ)⌋ < B := by
    have ha := Int.floor_le ((B : ℚ) * (2 / 10 : ℚ))
    have hb := Int.floor_le ((B : ℚ) * (3 / 10 : ℚ))
    have h2 : ((⌊(B : ℚ) * (2 / 10 : ℚ)⌋ + ⌊(B : ℚ) * (3 / 10 : ℚ)⌋ : Int) : ℚ) < (B : ℚ) := by
      push_cast
      linarith
    exact_mod_cast h2
  have hmaxeq : max ((l.length : Int) -
        (B - ⌊(B : ℚ) * (2 / 10 : ℚ)⌋ - ⌊(B : ℚ) * (3 / 10 : ℚ)⌋))
        ⌊(B : ℚ) * (2 / 10 : ℚ)⌋ =
      (l.length : Int) - (B - ⌊(B : ℚ) * (2 / 10 : ℚ)⌋ - ⌊(B : ℚ) * (3 / 10 : ℚ)⌋) :=
    max_eq_left (by omega)
  have hcore := smart_shape_core l B ⌊(B : ℚ) * (2 / 10 : ℚ)⌋ ⌊(B : ℚ) * (3 / 10 : ℚ)⌋
    hiC0 hmC0 hsum hlen
  simp only [smartSample, hiCeq, hmCeq, hmaxeq]
  exact hcore

theorem summary_shape_core {α : Type} (l : List α) (B sI sC : Int)
    (hsI0 : 0 ≤ sI) (hsC1 : 1 ≤ sC) (hsum : sI + sC ≤ B) (hlen : B < (l.length : Int)) :
    ∃ (iCn cSn : Nat) (midIdx : List Nat),
      (jsSlice l 0 sI ++
          (if B - sI - sC > 0 then
            (List.range (B - sI - sC).toNat).filterMap fun (i : Nat) =>
              let idx := sI + (i : Int) * Int.fdiv ((l.length : Int) - sC) (B - sI - sC)
              if idx < (l.length : Int) - sC ∧ 0 ≤ idx then l.get? idx.toNat else none
          else []) ++
          jsSliceFrom l (-sC)) =
        l.take iCn ++ (midIdx.filterMap fun j => l.get? j) ++ l.drop cSn ∧
      iCn ≤ cSn ∧ cSn ≤ l.length ∧ midIdx.Pairwise (· < ·) ∧
      (∀ j ∈ midIdx, iCn ≤ j ∧ j < cSn) ∧
      ((iCn : Int) + (midIdx.length : Int) + ((l.length : Int) - (cSn : Int)) ≤ B) ∧
      (0 < sI → 0 < iCn) := by
  have hcs0 : 0 ≤ (l.length : Int) + -sC := by omega
  have hslice1 : jsSlice l 0 sI = l.take sI.toNat := jsSlice_zero_toNat l sI hsI0
  have hslice2 : jsSliceFrom l (-sC) = l.drop ((l.length : Int) + -sC).toNat :=
    jsSliceFrom_neg_toNat l (-sC) (by omega) hcs0
  by_cases hg : B - sI - sC > 0
  · have hfdiv : Int.fdiv ((l.length : Int) - sC) (B - sI - sC) =
        ((l.length : Int) - sC) / (B - sI - sC) := Int.fdiv_eq_ediv _ (by omega)
    have hm1 : 1 ≤ ((l.length : Int) - sC) / (B - sI - sC) :=
      (Int.le_ediv_iff_mul_le hg).mpr (by omega)
    have hmono : ∀ i j : Nat, i < j →
        sI + (i : Int) * (((l.length : Int) - sC) / (B - sI - sC)) <
          sI + (j : Int) * (((l.length : Int) - sC) / (B - sI - sC)) := by
      intro i j hij
      have hij2 : (i : Int) < (j : Int) := by exact_mod_cast hij
      exact Int.add_lt_add_left
        (mul_lt_mul_of_pos_right hij2 (by omega)) sI
    have hlo : ∀ i : Nat,
        sI ≤ sI + (i : Int) * (((l.length : Int) - sC) / (B - sI - sC)) := by
      intro i
      have h0 : (0 : Int) ≤ (i : Int) * (((l.length : Int) - sC) / (B - sI - sC)) :=
        mul_nonneg (Int.natCast_nonneg i) (by omega)
      omega
    obtain ⟨midIdx, hmid, hpw, hmlen, hbnd⟩ :=
      middle_shape l sI ((l.length : Int) - sC) (B - sI - sC).toNat
        (fun i => sI + (i : Int) * (((l.length : Int) - sC) / (B - sI - sC)))
        hmono hlo
    refine ⟨sI.toNat, ((l.length : Int) + -sC).toNat, midIdx,
      ?_, by omega, by omega, hpw, ?_, ?_, ?_⟩
    · rw [hslice1, hslice2, if_pos hg, hfdiv]
      exact congrArg (fun t =>
        l.take sI.toNat ++ t ++ l.drop ((l.length : Int) + -sC).toNat) hmid
    · intro j hj
      have hb := hbnd j hj
      omega
    · have h1 := hmlen
      omega
    · intro h
      omega
  · refine ⟨sI.toNat, ((l.length : Int) + -sC).toNat, [],
      ?_, by omega, by omega, List.Pairwise.nil, ?_, ?_, ?_⟩
    · rw [hslice1, hslice2, if_neg hg]
      rfl
    · intro j hj
      exact absurd hj (List.not_mem_nil j)
    · have h1 : (([] : List Nat).length : Int) = 0 := rfl
      omega
    · intro h
      omega

theorem summarySample_eq {α : Type} (l : List α) (B : Int) (hB : 2 ≤ B)
    (hlen : B < (l.length : Int)) :
    ∃ (iCn cSn : Nat) (midIdx : List Nat),
      (summarySample l B).segments =
        l.take iCn ++ (midIdx.filterMap fun j => l.get? j) ++ l.drop cSn ∧
      iCn ≤ cSn ∧ cSn ≤ l.length ∧ midIdx.Pairwise (· < ·) ∧
      (∀ j ∈ midIdx, iCn ≤ j ∧ j < cSn) ∧
      ((iCn : Int) + (midIdx.length : Int) + ((l.length : Int) - (cSn : Int)) ≤ B) ∧
      (0 < Rat.floor (rmul (intQ B) (mkRat 1 10)) → 0 < iCn) := by
  have hBq : (2 : ℚ) ≤ (B : ℚ) := by exact_mod_cast hB
  have hsIeq : Rat.floor (rmul (intQ B) (mkRat 1 10)) = ⌊(B : ℚ) * (1 / 10 : ℚ)⌋ := by
    rw [rfloor_eq, rmul_eq, intQ_eq, Rat.mkRat_eq_div]
    norm_num
  have hsCeq : Rat.floor (rmul (intQ B) (mkRat 7 10)) = ⌊(B : ℚ) * (7 / 10 : ℚ)⌋ := by
    rw [rfloor_eq, rmul_eq, intQ_eq, Rat.mkRat_eq_div]
    norm_num
  have hsI0 : 0 ≤ ⌊(B : ℚ) * (1 / 10 : ℚ)⌋ := Int.floor_nonneg.mpr (by nlinarith)
  have hsC1 : 1 ≤ ⌊(B : ℚ) * (7 / 10 : ℚ)⌋ := by
    rw [Int.le_floor]
    push_cast
    linarith
  have hsum : ⌊(B : ℚ) * (1 / 10 : ℚ)⌋ + ⌊(B : ℚ) * (7 / 10 : ℚ)⌋ ≤ B := by
    have ha := Int.floor_le ((B : ℚ) * (1 / 10 : ℚ))
    have hb := Int.floor_le ((B : ℚ) * (7 / 10 : ℚ))
    have h2 : ((⌊(B : ℚ) * (1 / 10 : ℚ)⌋ + ⌊(B : ℚ) * (7 / 10 : ℚ)⌋ : Int) : ℚ) ≤ (B : ℚ) := by
      push_cast
      linarith
    exact_mod_cast h2
  have hcore := summary_shape_core l B ⌊(B : ℚ) * (1 / 10 : ℚ)⌋ ⌊(B : ℚ) * (7 / 10 : ℚ)⌋
    hsI0 hsC1 hsum hlen
  simp only [summarySample, hsIeq, hsCeq]
  exact hcore

/-- C5: amended sampling-budget law.  For the `'smart'` mode with any
`maxSegments ≥ 1`, and for the `'summary'` mode with any `maxSegments ≥ 2`,
`processTranscript` returns at most `maxSegments` segments, the output is a
sublist of the input (same relative order), and whenever the computed intro
count is positive the first output element is the first input element.  The
claim's original range "every maxSegments ≥ 1 for both modes" fails for the
summary mode at `maxSegments = 1` (see the counterexample), where
`slice(-0)` returns the whole array. -/
theorem c5_sampling_budget {α : Type} (l : List α) (mode : Str) (B : Int)
    (h : (mode = "smart".data ∧ 1 ≤ B) ∨ (mode = "summary".data ∧ 2 ≤ B)) :
    ((processTranscript l mode B).segments.length : Int) ≤ B ∧
    ((processTranscript l mode B).segments.Sublist l) ∧
    (0 < introCountOf mode B →
      (processTranscript l mode B).segments.head? = l.head?) := by
  have hB1 : 1 ≤ B := by
    rcases h with ⟨_, hB⟩ | ⟨_, hB⟩ <;> omega
  by_cases hfit : (l.length : Int) ≤ B
  · have hout : processTranscript l mode B =
        { segments := l, isTruncated := false, message := none } := by
      unfold processTranscript
      rw [if_pos hfit]
    rw [hout]
    exact ⟨hfit, List.Sublist.refl l, fun _ => rfl⟩
  · have hlen : B < (l.length : Int) := lt_of_not_le hfit
    have hne : l ≠ [] := by
      intro he
      rw [he] at hlen
      simp at hlen
      omega
    rcases h with ⟨hm, hB⟩ | ⟨hm, hB⟩
    · subst hm
      have hmode : processTranscript l "smart".data B = smartSample l B := by
        unfold processTranscript
        rw [if_neg hfit, if_neg (by decide), if_neg (by decide)]
      rw [hmode]
      obtain ⟨iCn, cSn, midIdx, hseg, hic, hcs, hpw, hbnd, hlenb, hhead⟩ :=
        smartSample_eq l B hB hlen
      have hp := sample_props_of_shape l _ B iCn cSn midIdx hseg hic hcs hpw hbnd hlenb
      refine ⟨hp.1, hp.2, ?_⟩
      intro hintro
      have hintro2 : introCountOf "smart".data B =
          Rat.floor (rmul (intQ B) (mkRat 2 10)) := by
        unfold introCountOf
        rw [if_neg (by decide)]
      rw [hintro2] at hintro
      exact head?_of_shape l _ iCn cSn midIdx hseg (hhead hintro) hne
    · subst hm
      have hmode : processTranscript l "summary".data B = summarySample l B := by
        unfold processTranscript
        rw [if_neg hfit, if_neg (by decide), if_pos rfl]
      rw [hmode]
      obtain ⟨iCn, cSn, midIdx, hseg, hic, hcs, hpw, hbnd, hlenb, hhead⟩ :=
        summarySample_eq l B hB hlen
      have hp := sample_props_of_shape l _ B iCn cSn midIdx hseg hic hcs hpw hbnd hlenb
      refine ⟨hp.1, hp.2, ?_⟩
      intro hintro
      have hintro2 : introCountOf "summary".data B =
          Rat.floor (rmul (intQ B) (mkRat 1 10)) := by
        unfold introCountOf
        rw [if_pos rfl]
      rw [hintro2] at hintro
      exact head?_of_shape l _ iCn cSn midIdx hseg (hhead hintro) hne

theorem c5_witness :
    ((processTranscript [0, 1, 2, 3, 4, 5, 6] "smart".data 5).segments.length : Int) ≤ 5 ∧
    ((processTranscript [0, 1, 2, 3, 4, 5, 6] "smart".data 5).segments.Sublist
      [0, 1, 2, 3, 4, 5, 6]) ∧
    (0 < introCountOf "smart".data 5 →
      (processTranscript [0, 1, 2, 3, 4, 5, 6] "smart".data 5).segments.head? =
        [0, 1, 2, 3, 4, 5, 6].head?) :=
  c5_sampling_budget [0, 1, 2, 3, 4, 5, 6] "smart".data 5 (Or.inl ⟨rfl, by decide⟩)
